import Mathlib

/-!
Verification of the jiffy application-menu pipeline (src/applicationMenu.js).

The JavaScript source is shallowly embedded: every function of the source file
is translated to a computable Lean definition of the same name.  Host-provided
operations (the filesystem, `STD.open`, `STD.loadFile`, `OS.readdir`,
`OS.stat`, `JSON.parse`/`JSON.stringify`) are modelled by an explicit
environment record `Env` and by an executable JSON codec over an inductive
`Json` value type covering the fragment the cache file uses (objects, arrays,
strings, booleans, null; the cache never contains numbers).

JavaScript strings are modelled as Lean `String`s, and the string primitives
used by the source (`startsWith`, `endsWith`, `toLowerCase`, `trim`,
`split`, `join`, `indexOf`, regular expressions) are given executable
definitions over the underlying character lists so that every theorem can be
evaluated on concrete inputs.
-/

/-- Whitespace class of the JavaScript regular-expression escape backslash-s
restricted to the ASCII range (space, tab, line feed, carriage return,
vertical tab, form feed); values in desktop files are single lines, so the
non-ASCII space code points never arise. -/
def jsWhitespace (c : Char) : Bool :=
  c = ' ' || c = '\t' || c = '\n' || c = '\x0b' || c = '\x0c' || c = '\r'

/-- String begins with the given pattern, on character lists. -/
def jsStartsWithList : List Char → List Char → Bool
  | _, [] => true
  | [], _ :: _ => false
  | c :: cs, d :: ds => c = d && jsStartsWithList cs ds

/-- Model of the JavaScript string method `startsWith`. -/
def jsStartsWith (s pat : String) : Bool :=
  jsStartsWithList s.data pat.data

/-- Model of the JavaScript string method `endsWith`. -/
def jsEndsWith (s pat : String) : Bool :=
  jsStartsWithList s.data.reverse pat.data.reverse

/-- Model of the JavaScript string method `toLowerCase` (ASCII range; the
only values compared after lowercasing in the source are `"true"`). -/
def jsToLower (s : String) : String :=
  ⟨s.data.map Char.toLower⟩

/-- Trim whitespace from both ends of a character list. -/
def trimList (l : List Char) : List Char :=
  ((l.dropWhile jsWhitespace).reverse.dropWhile jsWhitespace).reverse

/-- Model of the JavaScript string method `trim`. -/
def jsTrim (s : String) : String :=
  ⟨trimList s.data⟩

/-- Split a character list at every occurrence of the separator character,
following the semantics of the JavaScript `split` method: the empty string
splits to one empty segment, and separators at the ends produce empty
segments. -/
def splitOnChar (sep : Char) : List Char → List (List Char)
  | [] => [[]]
  | c :: cs =>
    let r := splitOnChar sep cs
    if c = sep then [] :: r else (c :: r.headD []) :: r.tail

/-- Model of the JavaScript string method `split` with a one-character
separator. -/
def jsSplit (sep : Char) (s : String) : List String :=
  (splitOnChar sep s.data).map (fun l => ⟨l⟩)

/-- Model of the JavaScript array method `join`. -/
def jsJoin (sep : String) : List String → String
  | [] => ""
  | [x] => x
  | x :: xs => x ++ sep ++ jsJoin sep xs

/-- Model of `line.indexOf("=")` followed by the two `substring` calls of
`extractDesktopEntryData`: `none` when the line has no separator, otherwise
the text before the first `=` and the text after it. -/
def splitKV (line : String) : Option (String × String) :=
  if line.data.contains '=' then
    some (⟨line.data.takeWhile (fun c => c ≠ '=')⟩,
          ⟨(line.data.dropWhile (fun c => c ≠ '=')).tail⟩)
  else none

/-- One maximal run matching the regular-expression alternative backslash-S+
starting at the head of the list: the token and the rest. -/
def spanNonWs (cs : List Char) : List Char × List Char :=
  (cs.takeWhile (fun c => !jsWhitespace c), cs.dropWhile (fun c => !jsWhitespace c))

/-- Attempt of the first regex alternative of `parseExecField` at a position
whose head character is a double quote: `cs` is the text after the opening
quote; the alternative succeeds when a closing quote follows at least one
non-quote character, returning the span between the quotes and the rest. -/
def findQuoteSpan (cs : List Char) : Option (List Char × List Char) :=
  let span := cs.takeWhile (fun c => c ≠ '"')
  match cs.dropWhile (fun c => c ≠ '"') with
  | '"' :: rest => if span.isEmpty then none else some (span, rest)
  | _ => none

/-- Successive matches of the global regular expression of `parseExecField`
(a double-quoted span of at least one non-quote character, or else a maximal
non-whitespace run), scanning left to right.  The `Nat` argument is
structural-recursion fuel; every recursive call is on a strictly shorter
suffix, so fuel equal to the length of the list is always sufficient. -/
def tokenizeExecAux : Nat → List Char → List (List Char)
  | 0, _ => []
  | _ + 1, [] => []
  | fuel + 1, c :: cs =>
    if jsWhitespace c then tokenizeExecAux fuel cs
    else if c = '"' then
      match findQuoteSpan cs with
      | some (span, rest) => ('"' :: (span ++ ['"'])) :: tokenizeExecAux fuel rest
      | none =>
        let t := spanNonWs (c :: cs)
        t.1 :: tokenizeExecAux fuel t.2
    else
      let t := spanNonWs (c :: cs)
      t.1 :: tokenizeExecAux fuel t.2

/-- All matches of the tokenizing regular expression over a character list. -/
def tokenizeExec (cs : List Char) : List (List Char) :=
  tokenizeExecAux cs.length cs

/-- Tokens of an `Exec` value: the matches of the global regular expression,
as strings. -/
def execTokens (execValue : String) : List String :=
  (tokenizeExec execValue.data).map (fun t => ⟨t⟩)

/-- Does a token match the field-code test regular expression (a percent sign
followed immediately by an ASCII letter)? -/
def isFieldCodeToken (t : String) : Bool :=
  match t.data with
  | '%' :: c :: _ => c.isAlpha
  | _ => false

/-- `parseExecField` of the source: tokenize the `Exec` value, drop
field-code tokens, and rejoin the survivors with single spaces. -/
def parseExecField (execValue : String) : String :=
  jsJoin " " ((execTokens execValue).filter (fun token => !isFieldCodeToken token))

/-- `parseCategoriesField` of the source: split on semicolons, drop empty
segments, join with the visual separator, trim. -/
def parseCategoriesField (categoriesValue : String) : String :=
  jsTrim (jsJoin " │ " ((jsSplit ';' categoriesValue).filter (fun s => s ≠ "")))

/-- `isAsciiPrintable` of the source: true when the first character exists
and is printable ASCII (code 32 to 126). -/
def isAsciiPrintable (str : String) : Bool :=
  match str.data with
  | [] => false
  | c :: _ => 32 ≤ c.toNat && c.toNat ≤ 126

/-- `parseKeywordsField` of the source: split on semicolons, keep segments
whose first character is printable ASCII, join with a comma, trim. -/
def parseKeywordsField (keywordsValue : String) : String :=
  jsTrim (jsJoin ", " ((jsSplit ';' keywordsValue).filter isAsciiPrintable))

example : parseExecField "app %f --flag" = "app --flag" := by decide
example : parseExecField "\"my app\" %U file" = "\"my app\" file" := by decide
example : parseCategoriesField "Utility;System;;" = "Utility │ System" := by decide
example : parseKeywordsField "ok;€bad;good" = "ok, good" := by decide

/-- Model of the JavaScript `replace(/\.[^/.]+$/, "")` of `findIconPath`:
remove a trailing dot followed by at least one character that is neither a
dot nor a slash; otherwise return the string unchanged. -/
def stripExt (s : String) : String :=
  let rev := s.data.reverse
  let ext := rev.takeWhile (fun c => c ≠ '.' && c ≠ '/')
  match rev.dropWhile (fun c => c ≠ '.' && c ≠ '/') with
  | '.' :: rest => if ext.isEmpty then s else ⟨rest.reverse⟩
  | _ => s

example : stripExt "foo.png" = "foo" := by decide
example : stripExt "foo" = "foo" := by decide
example : stripExt "foo." = "foo." := by decide
example : stripExt "a.tar.gz" = "a.tar" := by decide
example : stripExt "a/b.c/d" = "a/b.c/d" := by decide
example : stripExt "/x.png" = "/x" := by decide

/-- Outcome of opening and reading one descriptor file, modelling
`STD.open(filePath, "r")` together with the subsequent `getline` loop:
`noFd` is a null file descriptor (the file cannot be opened), `content`
gives the sequence of lines read by `getline`, and `raises` models a host
error thrown while processing the file (the event intercepted by the
`try`/`catch` of `parseDesktopFile`). -/
inductive FileOutcome where
  | noFd
  | raises
  | content (lines : List String)
deriving Repr, DecidableEq

/-- The ambient host environment of `applicationMenu.js`: the global
`HOME_DIR` and `USER_ARGUMENTS.refresh`, and the filesystem operations
`STD.loadFile` (contents of the cache file, `none` on failure), `OS.stat`
(existence of a path), `OS.readdir` (directory listing, `none` when the
error code is nonzero), descriptor-file reads, and the results of the two
consecutive `STD.open(path, "w+")` attempts for the cache file (`Except.ok`
for a usable descriptor, `Except.error errno` for a null one). -/
structure Env where
  home : String
  refresh : Bool
  loadFile : Option String
  stat : String → Bool
  readdir : String → Option (List String)
  openFile : String → FileOutcome
  openCache1 : Except Nat Unit
  openCache2 : Except Nat Unit

/-- Icon theme search paths of `findIconPath`, in source order. -/
def ICON_PATHS (home : String) : List String :=
  [home ++ "/.local/share/icons", "/usr/share/icons", "/usr/share/pixmaps"]

/-- Icon sizes searched by `findIconPath`, in source order. -/
def ICON_SIZES : List String := ["48x48", "32x32", "24x24", "16x16", "scalable"]

/-- Icon category directories searched by `findIconPath`, in source order. -/
def ICON_CATEGORIES : List String := ["apps", "applications"]

/-- Icon file extensions tried by `findIconPath`, in source order. -/
def ICON_EXTENSIONS : List String := [".svg", ".png", ".xpm"]

/-- One `OS.stat` probe of `findIconPath`: the path when it exists, else
`none`. -/
def probe (env : Env) (p : String) : Option String :=
  if env.stat p then some p else none

/-- The body of the outer loop of `findIconPath` for one entry of
`ICON_PATHS`: the pixmap directory is probed directly with each extension;
a theme directory is listed with `OS.readdir` (skipped on error) and then
searched through `"hicolor"` followed by the listed themes, sizes,
categories and extensions, in source order. -/
def searchBasePath (env : Env) (basePath iconName : String) : Option String :=
  if basePath = "/usr/share/pixmaps" then
    ICON_EXTENSIONS.findSome? (fun ext => probe env (basePath ++ "/" ++ iconName ++ ext))
  else
    match env.readdir basePath with
    | none => none
    | some themes =>
      ("hicolor" :: themes).findSome? (fun theme =>
        ICON_SIZES.findSome? (fun size =>
          ICON_CATEGORIES.findSome? (fun category =>
            ICON_EXTENSIONS.findSome? (fun ext =>
              probe env (basePath ++ "/" ++ theme ++ "/" ++ size ++ "/" ++
                category ++ "/" ++ iconName ++ ext)))))

/-- `findIconPath` of the source: an absolute name that exists is returned
unchanged; otherwise the extension-stripped name is searched through the
icon directories and the first existing candidate returned; with no match
the stripped name itself is returned. -/
def findIconPath (env : Env) (iconName : String) : String :=
  if jsStartsWith iconName "/" && env.stat iconName then iconName
  else
    let name := stripExt iconName
    match (ICON_PATHS env.home).findSome? (fun basePath => searchBasePath env basePath name) with
    | some p => p
    | none => name

/-- The mutable `appData` object of `extractDesktopEntryData`: `noDisplay`
is initialized to `false`, the other seven properties are absent until
their field is assigned. -/
structure AppData where
  noDisplay : Bool := false
  name : Option String := none
  description : Option String := none
  exec : Option String := none
  icon : Option String := none
  terminal : Option Bool := none
  category : Option String := none
  keywords : Option String := none
deriving Repr, DecidableEq

/-- 1 when the option is present, else 0. -/
def optCount {α : Type} (o : Option α) : Nat :=
  if o.isSome then 1 else 0

/-- `Object.keys(appData).length`: `noDisplay` is always a key, each of the
seven other properties is a key exactly when it has been assigned. -/
def AppData.keyCount (st : AppData) : Nat :=
  1 + optCount st.name + optCount st.description + optCount st.exec +
    optCount st.icon + optCount st.terminal + optCount st.category +
    optCount st.keywords

/-- The `FIELD_PARSERS` dispatch table of `extractDesktopEntryData`: apply
the handler of a recognized field name to the state, or leave the state
unchanged for an unrecognized name. -/
def applyField (env : Env) (st : AppData) (fieldName fieldValue : String) : AppData :=
  if fieldName = "Name" then { st with name := some ("• " ++ fieldValue) }
  else if fieldName = "Comment" then { st with description := some fieldValue }
  else if fieldName = "Exec" then { st with exec := some (parseExecField fieldValue) }
  else if fieldName = "Icon" then { st with icon := some (findIconPath env fieldValue) }
  else if fieldName = "Terminal" then { st with terminal := some (jsToLower fieldValue = "true") }
  else if fieldName = "NoDisplay" then { st with noDisplay := (jsToLower fieldValue = "true") }
  else if fieldName = "Categories" then { st with category := some (parseCategoriesField fieldValue) }
  else if fieldName = "Keywords" then { st with keywords := some (parseKeywordsField fieldValue) }
  else st

/-- `REQUIRED_FIELDS` of the source: all recognized fields except
`noDisplay`. -/
def REQUIRED_FIELDS : Nat := 7

/-- The `while` loop of `extractDesktopEntryData` over the remaining lines,
with the `inDesktopEntry` flag and the accumulated `appData`: section
markers toggle or end the scan, lines outside the section and lines with no
`=` are skipped, and after a dispatched field line the loop stops early
when every key (the seven fields plus `noDisplay`) is present. -/
def extractLoop (env : Env) : List String → Bool → AppData → AppData
  | [], _, st => st
  | line :: rest, inDesktopEntry, st =>
    if jsStartsWith line "[Desktop Entry]" then extractLoop env rest true st
    else if jsStartsWith line "[" && inDesktopEntry then st
    else if !inDesktopEntry then extractLoop env rest inDesktopEntry st
    else
      match splitKV line with
      | none => extractLoop env rest inDesktopEntry st
      | some (fieldName, fieldValue) =>
        let st' := applyField env st fieldName fieldValue
        if REQUIRED_FIELDS + 1 ≤ st'.keyCount then st'
        else extractLoop env rest inDesktopEntry st'

/-- `extractDesktopEntryData` of the source, over the list of lines returned
by `getline`. -/
def extractDesktopEntryData (env : Env) (lines : List String) : AppData :=
  extractLoop env lines false {}

/-- Reference variant of `extractLoop` with the early-stop test removed and
everything else identical; it exists only to state and settle the claim
that the early stop is observationally transparent (spec section 4.2). -/
def extractLoopAll (env : Env) : List String → Bool → AppData → AppData
  | [], _, st => st
  | line :: rest, inDesktopEntry, st =>
    if jsStartsWith line "[Desktop Entry]" then extractLoopAll env rest true st
    else if jsStartsWith line "[" && inDesktopEntry then st
    else if !inDesktopEntry then extractLoopAll env rest inDesktopEntry st
    else
      match splitKV line with
      | none => extractLoopAll env rest inDesktopEntry st
      | some (fieldName, fieldValue) =>
        extractLoopAll env rest inDesktopEntry (applyField env st fieldName fieldValue)

/-- Reference variant of `extractDesktopEntryData` without the early stop. -/
def extractDesktopEntryDataAll (env : Env) (lines : List String) : AppData :=
  extractLoopAll env lines false {}

/-- One entry of the application menu, as produced by `parseDesktopFile`:
the extracted `appData` with the internal `noDisplay` property deleted and
the originating `path` appended. -/
structure AppRecord where
  name : Option String
  description : Option String
  exec : Option String
  icon : Option String
  terminal : Option Bool
  category : Option String
  keywords : Option String
  path : String
deriving Repr, DecidableEq

/-- The spread `{ ...appData, path: filePath }` after `delete
appData.noDisplay`. -/
def AppData.toRecord (st : AppData) (filePath : String) : AppRecord :=
  { name := st.name, description := st.description, exec := st.exec,
    icon := st.icon, terminal := st.terminal, category := st.category,
    keywords := st.keywords, path := filePath }

/-- `parseDesktopFile` of the source.  The first component is the returned
application object (or `null`); the second collects the diagnostic `print`
output, which is nonempty exactly when the `catch` branch runs. -/
def parseDesktopFile (env : Env) (filePath : String) : Option AppRecord × List String :=
  match env.openFile filePath with
  | .noFd => (none, [])
  | .raises => (none, ["Failed to parse: " ++ filePath ++ "."])
  | .content lines =>
    let appData := extractDesktopEntryData env lines
    if 0 < appData.keyCount && !appData.noDisplay && appData.exec.getD "" ≠ "" then
      (some (appData.toRecord filePath), [])
    else (none, [])

/-- `parseDesktopFiles` of the source: parse every path, pushing each
non-null entry, in order; diagnostic output is concatenated alongside. -/
def parseDesktopFiles (env : Env) (filePaths : List String) : List AppRecord × List String :=
  filePaths.foldl
    (fun acc filePath =>
      let r := parseDesktopFile env filePath
      (match r.1 with
       | some appEntry => acc.1 ++ [appEntry]
       | none => acc.1,
       acc.2 ++ r.2))
    ([], [])

/-- `DESKTOP_DIRS` of `prepareAppsMenu`, in source order: the system-wide
directory first, the user-local directory second. -/
def DESKTOP_DIRS (env : Env) : List String :=
  ["/usr/share/applications", env.home ++ "/.local/share/applications"]

/-- `collectDesktopFiles` of the source: enumerate each directory in order
(a directory whose `readdir` fails is skipped), keep entries ending in
`.desktop` whose filename has not been seen yet, and return the full paths
in discovery order.  The accumulator pairs the set of seen filenames with
the collected paths. -/
def collectDesktopFiles (env : Env) (directories : List String) : List String :=
  (directories.foldl
    (fun (acc : List String × List String) dir =>
      match env.readdir dir with
      | none => acc
      | some files =>
        files.foldl
          (fun (acc : List String × List String) file =>
            if !jsEndsWith file ".desktop" || acc.1.contains file then acc
            else (acc.1 ++ [file], acc.2 ++ [dir ++ "/" ++ file]))
          acc)
    ([], [])).2

/-- `prepareAppsMenu` of the source: scan the fixed directories, then parse
the collected descriptor files. -/
def prepareAppsMenu (env : Env) : List AppRecord × List String :=
  parseDesktopFiles env (collectDesktopFiles env (DESKTOP_DIRS env))

mutual
/-- JSON values of the fragment the cache file uses: objects, arrays,
strings, booleans, null (the cache structure never contains numbers).
Arrays and objects are given by the mutually defined list types so that all
codec functions are structurally recursive. -/
inductive Json where
  | null : Json
  | bool (b : Bool) : Json
  | str (s : String) : Json
  | arr (elems : JsonArr) : Json
  | obj (fields : JsonObj) : Json
/-- A list of JSON values (array elements). -/
inductive JsonArr where
  | nil : JsonArr
  | cons (head : Json) (tail : JsonArr) : JsonArr
/-- An association list of JSON object members, in insertion order. -/
inductive JsonObj where
  | nil : JsonObj
  | cons (key : String) (value : Json) (tail : JsonObj) : JsonObj
end

/-- Lowercase hexadecimal digit of a value below 16. -/
def hexDigit (n : Nat) : Char :=
  if n = 0 then '0' else if n = 1 then '1' else if n = 2 then '2'
  else if n = 3 then '3' else if n = 4 then '4' else if n = 5 then '5'
  else if n = 6 then '6' else if n = 7 then '7' else if n = 8 then '8'
  else if n = 9 then '9' else if n = 10 then 'a' else if n = 11 then 'b'
  else if n = 12 then 'c' else if n = 13 then 'd' else if n = 14 then 'e'
  else 'f'

/-- Value of a hexadecimal digit character, `none` for a non-digit. -/
def hexVal (c : Char) : Option Nat :=
  let n := c.toNat
  if 48 ≤ n && n ≤ 57 then some (n - 48)
  else if 97 ≤ n && n ≤ 102 then some (n - 87)
  else if 65 ≤ n && n ≤ 70 then some (n - 55)
  else none

/-- The escaping `JSON.stringify` applies inside a string literal: quote and
backslash are backslash-escaped, the five control characters with short
escapes use them, any other control character becomes a four-digit
hexadecimal escape, and everything else is emitted verbatim. -/
def escapeChar (c : Char) : List Char :=
  if c = '"' then ['\\', '"']
  else if c = '\\' then ['\\', '\\']
  else if c = '\x08' then ['\\', 'b']
  else if c = '\t' then ['\\', 't']
  else if c = '\n' then ['\\', 'n']
  else if c = '\x0c' then ['\\', 'f']
  else if c = '\r' then ['\\', 'r']
  else if c.toNat < 32 then
    ['\\', 'u', '0', '0', hexDigit (c.toNat / 16), hexDigit (c.toNat % 16)]
  else [c]

/-- A `JSON.stringify` string literal: opening quote, escaped characters,
closing quote. -/
def quoteChars (s : String) : List Char :=
  '"' :: (s.data.map escapeChar).flatten ++ ['"']

mutual
/-- `JSON.stringify` output of a value, as a character list: no inserted
whitespace, object members in insertion order. -/
def jsonChars : Json → List Char
  | .null => "null".data
  | .bool true => "true".data
  | .bool false => "false".data
  | .str s => quoteChars s
  | .arr .nil => ['[', ']']
  | .arr (.cons e es) => '[' :: (jsonChars e ++ elemsChars es) ++ [']']
  | .obj .nil => ['{', '}']
  | .obj (.cons k v fs) =>
    '{' :: (quoteChars k ++ ':' :: jsonChars v ++ fieldsChars fs) ++ ['}']
/-- Comma-prefixed stringification of the tail elements of an array. -/
def elemsChars : JsonArr → List Char
  | .nil => []
  | .cons e es => ',' :: jsonChars e ++ elemsChars es
/-- Comma-prefixed stringification of the tail members of an object. -/
def fieldsChars : JsonObj → List Char
  | .nil => []
  | .cons k v fs => ',' :: quoteChars k ++ ':' :: jsonChars v ++ fieldsChars fs
end

/-- `JSON.stringify`, as a string. -/
def stringify (j : Json) : String := ⟨jsonChars j⟩

/-- JSON insignificant whitespace accepted between tokens by `JSON.parse`. -/
def isJsonWs (c : Char) : Bool :=
  c = ' ' || c = '\t' || c = '\n' || c = '\r'

/-- Skip insignificant whitespace. -/
def skipWs (cs : List Char) : List Char :=
  cs.dropWhile isJsonWs

/-- Decode one escape character of a JSON string literal (everything except
the hexadecimal form). -/
def unescapeChar (c : Char) : Option Char :=
  if c = '"' then some '"'
  else if c = '\\' then some '\\'
  else if c = '/' then some '/'
  else if c = 'b' then some '\x08'
  else if c = 'f' then some '\x0c'
  else if c = 'n' then some '\n'
  else if c = 'r' then some '\r'
  else if c = 't' then some '\t'
  else none

/-- Parse the body of a JSON string literal (the part after the opening
quote) up to and including the closing quote, returning the decoded
characters and the rest of the input. -/
def parseStrChars : List Char → Option (List Char × List Char)
  | [] => none
  | c :: rest =>
    if c = '"' then some ([], rest)
    else if c = '\\' then
      match rest with
      | [] => none
      | e :: rest2 =>
        if e = 'u' then
          match rest2 with
          | a :: b :: c2 :: d :: rest3 =>
            match hexVal a, hexVal b, hexVal c2, hexVal d with
            | some va, some vb, some vc, some vd =>
              (parseStrChars rest3).map
                (fun p => (Char.ofNat (((va * 16 + vb) * 16 + vc) * 16 + vd) :: p.1, p.2))
            | _, _, _, _ => none
          | _ => none
        else
          match unescapeChar e with
          | some ch => (parseStrChars rest2).map (fun p => (ch :: p.1, p.2))
          | none => none
    else (parseStrChars rest).map (fun p => (c :: p.1, p.2))

mutual
/-- Recursive-descent parser for one JSON value, modelling `JSON.parse` on
the fragment of JSON the cache file uses (numbers are not produced by the
cache encoder and are rejected).  The `Nat` argument is recursion fuel; the
top-level wrapper passes more fuel than any input can consume. -/
def parseVal : Nat → List Char → Option (Json × List Char)
  | 0, _ => none
  | fuel + 1, cs =>
    match cs with
    | [] => none
    | c :: rest =>
      if c = 'n' then
        if jsStartsWithList rest ['u', 'l', 'l'] then some (.null, rest.drop 3) else none
      else if c = 't' then
        if jsStartsWithList rest ['r', 'u', 'e'] then some (.bool true, rest.drop 3) else none
      else if c = 'f' then
        if jsStartsWithList rest ['a', 'l', 's', 'e'] then some (.bool false, rest.drop 4) else none
      else if c = '"' then
        (parseStrChars rest).map (fun p => (.str ⟨p.1⟩, p.2))
      else if c = '[' then
        match skipWs rest with
        | [] => none
        | c2 :: rest2 =>
          if c2 = ']' then some (.arr .nil, rest2)
          else
            match parseVal fuel (c2 :: rest2) with
            | none => none
            | some (v, rest3) =>
              match parseElems fuel rest3 with
              | none => none
              | some (vs, rest4) => some (.arr (.cons v vs), rest4)
      else if c = '{' then
        match skipWs rest with
        | [] => none
        | c2 :: rest2 =>
          if c2 = '}' then some (.obj .nil, rest2)
          else
            match parseMember fuel (c2 :: rest2) with
            | none => none
            | some (k, v, rest3) =>
              match parseFieldsTail fuel rest3 with
              | none => none
              | some (fs, rest4) => some (.obj (.cons k v fs), rest4)
      else none
/-- Parse one `"key":value` object member. -/
def parseMember : Nat → List Char → Option (String × Json × List Char)
  | 0, _ => none
  | fuel + 1, cs =>
    match cs with
    | [] => none
    | c :: rest =>
      if c = '"' then
        match parseStrChars rest with
        | none => none
        | some (k, rest2) =>
          match skipWs rest2 with
          | [] => none
          | c2 :: rest3 =>
            if c2 = ':' then
              match parseVal fuel (skipWs rest3) with
              | none => none
              | some (v, rest4) => some (⟨k⟩, v, rest4)
            else none
      else none
/-- Parse the tail of an array after its first element: a possibly empty
run of comma-separated values followed by the closing bracket. -/
def parseElems : Nat → List Char → Option (JsonArr × List Char)
  | 0, _ => none
  | fuel + 1, cs =>
    match skipWs cs with
    | [] => none
    | c :: rest =>
      if c = ']' then some (.nil, rest)
      else if c = ',' then
        match parseVal fuel (skipWs rest) with
        | none => none
        | some (v, rest2) =>
          match parseElems fuel rest2 with
          | none => none
          | some (vs, rest3) => some (.cons v vs, rest3)
      else none
/-- Parse the tail of an object after its first member: a possibly empty
run of comma-separated members followed by the closing brace. -/
def parseFieldsTail : Nat → List Char → Option (JsonObj × List Char)
  | 0, _ => none
  | fuel + 1, cs =>
    match skipWs cs with
    | [] => none
    | c :: rest =>
      if c = '}' then some (.nil, rest)
      else if c = ',' then
        match parseMember fuel (skipWs rest) with
        | none => none
        | some (k, v, rest2) =>
          match parseFieldsTail fuel rest2 with
          | none => none
          | some (fs, rest3) => some (.cons k v fs, rest3)
      else none
end

/-- `JSON.parse`: skip leading whitespace, parse one value, require only
whitespace after it. -/
def parseJson (s : String) : Option Json :=
  let cs := skipWs s.data
  match parseVal (cs.length + 1) cs with
  | some (j, rest) => if (skipWs rest).isEmpty then some j else none
  | none => none

example : parseJson "garbage" = none := rfl
example : parseJson (stringify (.obj (.cons "a" (.arr (.cons (.bool true)
    (.cons (.str "x") .nil))) .nil))) =
    some (.obj (.cons "a" (.arr (.cons (.bool true) (.cons (.str "x") .nil))) .nil)) := rfl
example : parseJson (stringify (.obj (.cons "Apps" (.arr .nil) .nil))) =
    some (.obj (.cons "Apps" (.arr .nil) .nil)) := rfl

/-- Build a `JsonObj` from an association list. -/
def jsonObjOfList : List (String × Json) → JsonObj
  | [] => .nil
  | (k, v) :: rest => .cons k v (jsonObjOfList rest)

/-- Association list of a `JsonObj`. -/
def jsonObjToList : JsonObj → List (String × Json)
  | .nil => []
  | .cons k v fs => (k, v) :: jsonObjToList fs

/-- Build a `JsonArr` from a list. -/
def jsonArrOfList : List Json → JsonArr
  | [] => .nil
  | j :: rest => .cons j (jsonArrOfList rest)

/-- List of the elements of a `JsonArr`. -/
def jsonArrToList : JsonArr → List Json
  | .nil => []
  | .cons e es => e :: jsonArrToList es

/-- A string-valued object member when the property is present, nothing
when it is absent (`JSON.stringify` omits absent properties). -/
def optStrField (key : String) : Option String → List (String × Json)
  | some s => [(key, .str s)]
  | none => []

/-- A boolean-valued object member when the property is present. -/
def optBoolField (key : String) : Option Bool → List (String × Json)
  | some b => [(key, .bool b)]
  | none => []

/-- The JSON object members of one application record.  `JSON.stringify`
emits members in property insertion order, which in the source depends on
the order fields appear in the descriptor file; the codec model fixes one
canonical order, which no stated property depends on since decoding is by
key. -/
def AppRecord.fieldsList (r : AppRecord) : List (String × Json) :=
  optStrField "name" r.name ++ optStrField "description" r.description ++
    optStrField "exec" r.exec ++ optStrField "icon" r.icon ++
    optBoolField "terminal" r.terminal ++ optStrField "category" r.category ++
    optStrField "keywords" r.keywords ++ [("path", .str r.path)]

/-- JSON value of one application record. -/
def AppRecord.toJson (r : AppRecord) : Json :=
  .obj (jsonObjOfList r.fieldsList)

/-- JSON value of the persisted cache structure `{ Apps: appMenu }`. -/
def appMenuJson (apps : List AppRecord) : Json :=
  .obj (.cons "Apps" (.arr (jsonArrOfList (apps.map AppRecord.toJson))) .nil)

/-- The text written to the cache file:
`JSON.stringify({ Apps: appMenu })`. -/
def encodeAppMenu (apps : List AppRecord) : String :=
  stringify (appMenuJson apps)

/-- First member of the association list with the given key. -/
def jLookup (fields : List (String × Json)) (key : String) : Option Json :=
  match fields with
  | [] => none
  | (k, v) :: rest => if k = key then some v else jLookup rest key

/-- Read an optional string property: absent is fine, a present non-string
value is a decode failure. -/
def getStrField (fields : List (String × Json)) (key : String) : Option (Option String) :=
  match jLookup fields key with
  | none => some none
  | some (.str s) => some (some s)
  | some _ => none

/-- Read an optional boolean property. -/
def getBoolField (fields : List (String × Json)) (key : String) : Option (Option Bool) :=
  match jLookup fields key with
  | none => some none
  | some (.bool b) => some (some b)
  | some _ => none

/-- Read a required string property. -/
def getReqStrField (fields : List (String × Json)) (key : String) : Option String :=
  match jLookup fields key with
  | some (.str s) => some s
  | _ => none

/-- Field-for-field reading of one application record back out of its JSON
value. -/
def decodeAppRecord (j : Json) : Option AppRecord :=
  match j with
  | .obj fs =>
    let l := jsonObjToList fs
    do
      let name ← getStrField l "name"
      let description ← getStrField l "description"
      let exec ← getStrField l "exec"
      let icon ← getStrField l "icon"
      let terminal ← getBoolField l "terminal"
      let category ← getStrField l "category"
      let keywords ← getStrField l "keywords"
      let path ← getReqStrField l "path"
      pure { name := name, description := description, exec := exec,
             icon := icon, terminal := terminal, category := category,
             keywords := keywords, path := path }
  | _ => none

/-- Decode every element of a JSON array as an application record. -/
def decodeAppList : List Json → Option (List AppRecord)
  | [] => some []
  | j :: rest =>
    match decodeAppRecord j, decodeAppList rest with
    | some r, some rs => some (r :: rs)
    | _, _ => none

/-- Field-for-field reading of the whole cache structure out of its JSON
value: the `Apps` member must be an array of application records. -/
def decodeApps (j : Json) : Option (List AppRecord) :=
  match j with
  | .obj fs =>
    match jLookup (jsonObjToList fs) "Apps" with
    | some (.arr es) => decodeAppList (jsonArrToList es)
    | _ => none
  | _ => none

/-- Parse the cache file text and read the application list back. -/
def decodeAppMenu (s : String) : Option (List AppRecord) :=
  match parseJson s with
  | some j => decodeApps j
  | none => none

/-- Errors `getAppMenu` can raise: the `SyntaxError` thrown by `JSON.parse`
on a corrupt cache file, and the `Error` thrown when the cache file cannot
be opened for writing after the retry. -/
inductive JErr where
  | jsonParseError
  | openError (msg : String)
deriving Repr, DecidableEq

/-- Result of `getAppMenu`: either the structure decoded from the cache
file, or a freshly built menu together with the diagnostic output of the
build, whether `ensureDir` was invoked, and the text written to the cache
file. -/
inductive GetResult where
  | fromCache (j : Json)
  | fresh (apps : List AppRecord) (log : List String) (mkdirCalled : Bool)
      (cacheText : String)

/-- `cachedApplicationMenuDirPath` of the source. -/
def cacheDirPath (env : Env) : String := env.home ++ "/.cache/jiffy/"

/-- `cachedApplicationMenuFilePath` of the source. -/
def cacheFilePath (env : Env) : String := cacheDirPath env ++ "appsMenu.json"

/-- The message of the `Error` thrown when the second open of the cache
file fails. -/
def openErrMsg (path : String) (errno : Nat) : String :=
  "Failed to open file \"" ++ path ++ "\".\nError code: " ++ toString errno

/-- `getAppMenu` of the source.  When no refresh is forced and
`STD.loadFile` returns truthy contents, `JSON.parse` decides the result: a
parsed structure is returned as is, a parse failure throws.  Otherwise the
menu is rebuilt; the cache file is opened with `STD.open`, on failure
`ensureDir` is invoked only for error code 2 and the open retried exactly
once, and a second failure throws an error naming the path and the error
code of the second failure. -/
def getAppMenu (env : Env) : Except JErr GetResult :=
  if !env.refresh && env.loadFile.getD "" != "" then
    match parseJson (env.loadFile.getD "") with
    | some j => .ok (.fromCache j)
    | none => .error .jsonParseError
  else
    match env.openCache1 with
    | .ok _ =>
      .ok (.fresh (prepareAppsMenu env).1 (prepareAppsMenu env).2 false
        (encodeAppMenu (prepareAppsMenu env).1))
    | .error e1 =>
      match env.openCache2 with
      | .ok _ =>
        .ok (.fresh (prepareAppsMenu env).1 (prepareAppsMenu env).2 (e1 == 2)
          (encodeAppMenu (prepareAppsMenu env).1))
      | .error e2 => .error (.openError (openErrMsg (cacheFilePath env) e2))

example : openErrMsg "/p" 13 = "Failed to open file \"/p\".\nError code: 13" := by decide

/-- Candidate paths probed inside one theme: size buckets, then categories,
then extensions, in source order. -/
def themeCandidates (basePath theme iconName : String) : List String :=
  (ICON_SIZES.map (fun size =>
    (ICON_CATEGORIES.map (fun category =>
      ICON_EXTENSIONS.map (fun ext =>
        basePath ++ "/" ++ theme ++ "/" ++ size ++ "/" ++ category ++ "/" ++
          iconName ++ ext))).flatten)).flatten

/-- Candidate paths probed inside one theme directory: the synthetic theme
`"hicolor"` first, then the listed themes. -/
def baseCandidates (basePath : String) (themes : List String) (iconName : String) : List String :=
  (("hicolor" :: themes).map (fun theme => themeCandidates basePath theme iconName)).flatten

/-- Every candidate path `findIconPath` probes, in probe order, given the
listings of the two theme directories. -/
def iconCandidates (home : String) (userThemes sysThemes : List String)
    (iconName : String) : List String :=
  baseCandidates (home ++ "/.local/share/icons") userThemes iconName ++
    baseCandidates "/usr/share/icons" sysThemes iconName ++
    ICON_EXTENSIONS.map (fun ext => "/usr/share/pixmaps" ++ "/" ++ iconName ++ ext)

theorem findSome?_probe_map {β : Type} (env : Env) (g : β → String) (L : List β) :
    L.findSome? (fun x => probe env (g x)) = (L.map g).find? env.stat := by
  induction L with
  | nil => rfl
  | cons x L ih =>
    by_cases h : env.stat (g x)
    · simp only [List.findSome?_cons, probe, h, if_true, List.map_cons,
        List.find?_cons_of_pos _ h]
    · simp only [List.findSome?_cons, probe, h, if_false, List.map_cons]
      rw [List.find?_cons_of_neg _ (by simp [h])]
      exact ih

theorem find?_flatten_findSome? {β : Type} (p : String → Bool) (f : β → List String)
    (L : List β) :
    L.findSome? (fun x => (f x).find? p) = ((L.map f).flatten).find? p := by
  induction L with
  | nil => rfl
  | cons x L ih =>
    rw [List.map_cons, List.flatten_cons, List.find?_append, List.findSome?_cons, ← ih]
    cases (f x).find? p <;> simp [Option.or]

theorem searchBasePath_pixmaps (env : Env) (iconName : String) :
    searchBasePath env "/usr/share/pixmaps" iconName =
      (ICON_EXTENSIONS.map (fun ext => "/usr/share/pixmaps" ++ "/" ++ iconName ++ ext)).find?
        env.stat := by
  rw [searchBasePath, if_pos rfl,
    findSome?_probe_map env (fun ext => "/usr/share/pixmaps" ++ "/" ++ iconName ++ ext)]

theorem searchBasePath_themeDir (env : Env) (basePath iconName : String)
    (themes : List String) (hb : basePath ≠ "/usr/share/pixmaps")
    (hr : env.readdir basePath = some themes) :
    searchBasePath env basePath iconName =
      (baseCandidates basePath themes iconName).find? env.stat := by
  rw [searchBasePath, if_neg hb, hr]
  simp only [findSome?_probe_map, find?_flatten_findSome?]
  rw [baseCandidates]
  congr 1

theorem userIconsDir_ne_pixmaps (home : String) :
    home ++ "/.local/share/icons" ≠ "/usr/share/pixmaps" := by
  intro h
  have hd : (home ++ "/.local/share/icons").data = "/usr/share/pixmaps".data :=
    congrArg String.data h
  rw [String.data_append] at hd
  have hlen := congrArg List.length hd
  rw [List.length_append] at hlen
  have h1 : ("/.local/share/icons" : String).data.length = 19 := by decide
  have h2 : ("/usr/share/pixmaps" : String).data.length = 18 := by decide
  rw [h1, h2] at hlen
  omega

theorem searchAllBases (env : Env) (iconName : String) (tu ts : List String)
    (hu : env.readdir (env.home ++ "/.local/share/icons") = some tu)
    (hs : env.readdir "/usr/share/icons" = some ts) :
    (ICON_PATHS env.home).findSome? (fun basePath => searchBasePath env basePath iconName) =
      (iconCandidates env.home tu ts iconName).find? env.stat := by
  rw [ICON_PATHS]
  simp only [List.findSome?_cons, List.findSome?_nil]
  rw [searchBasePath_themeDir env _ iconName tu (userIconsDir_ne_pixmaps env.home) hu,
    searchBasePath_themeDir env _ iconName ts (by decide) hs,
    searchBasePath_pixmaps]
  rw [iconCandidates, List.find?_append, List.find?_append]
  cases h1 : (baseCandidates (env.home ++ "/.local/share/icons") tu iconName).find? env.stat <;>
    cases h2 : (baseCandidates "/usr/share/icons" ts iconName).find? env.stat <;>
      cases h3 : (ICON_EXTENSIONS.map
          (fun ext => "/usr/share/pixmaps" ++ "/" ++ iconName ++ ext)).find? env.stat <;>
        simp [Option.or]

theorem findIconPath_eq_candidates (env : Env) (iconName : String) (tu ts : List String)
    (hu : env.readdir (env.home ++ "/.local/share/icons") = some tu)
    (hs : env.readdir "/usr/share/icons" = some ts)
    (habs : jsStartsWith iconName "/" = false ∨ env.stat iconName = false) :
    findIconPath env iconName =
      ((iconCandidates env.home tu ts (stripExt iconName)).find? env.stat).getD
        (stripExt iconName) := by
  have hcond : (jsStartsWith iconName "/" && env.stat iconName) = false := by
    rcases habs with h | h <;> simp [h]
  rw [findIconPath, hcond]
  simp only [Bool.false_eq_true, if_false]
  rw [searchAllBases env _ tu ts hu hs]
  cases h : (iconCandidates env.home tu ts (stripExt iconName)).find? env.stat <;> simp

/-- Environment with one existing file, the absolute icon path itself. -/
def envIconAbs : Env :=
  { home := "/home/u", refresh := true, loadFile := none,
    stat := fun p => p == "/x.png",
    readdir := fun _ => some [],
    openFile := fun _ => .noFd,
    openCache1 := .ok (), openCache2 := .ok () }

/-- C5 counterexample: for the icon name `"/x.png"`, with the file existing
at exactly that path, no candidate of the nested search order exists, so
the claim predicts the extension-stripped input `"/x"`; `findIconPath`
instead returns the input unchanged via the absolute-path check that the
claim omits. -/
theorem iconSearchOrder_counterexample :
    findIconPath envIconAbs "/x.png" = "/x.png" ∧
    (iconCandidates envIconAbs.home [] [] (stripExt "/x.png")).find? envIconAbs.stat = none ∧
    stripExt "/x.png" = "/x" ∧ ("/x.png" : String) ≠ "/x" := by
  refine ⟨by decide, by decide, by decide, by decide⟩

/-- C5 (amended): for an icon name that is not an absolute path, given the
listings of the two theme directories, `findIconPath` returns the first
existing candidate probed in the order directory (user theme dir, system
theme dir, pixmap dir), theme (`"hicolor"` first, then discovered themes),
size bucket, category, extension; with no existing candidate it returns the
extension-stripped input name. -/
theorem iconSearchOrder (env : Env) (iconName : String) (tu ts : List String)
    (hu : env.readdir (env.home ++ "/.local/share/icons") = some tu)
    (hs : env.readdir "/usr/share/icons" = some ts)
    (habs : jsStartsWith iconName "/" = false) :
    findIconPath env iconName =
      ((iconCandidates env.home tu ts (stripExt iconName)).find? env.stat).getD
        (stripExt iconName) :=
  findIconPath_eq_candidates env iconName tu ts hu hs (Or.inl habs)

/-- Environment containing exactly the file of the spec example,
`hicolor/48x48/apps/foo.png` in the user theme directory. -/
def envIconW : Env :=
  { home := "/h", refresh := true, loadFile := none,
    stat := fun p => p == "/h/.local/share/icons/hicolor/48x48/apps/foo.png",
    readdir := fun d =>
      if d == "/h/.local/share/icons" then some ["Adwaita"]
      else if d == "/usr/share/icons" then some [] else none,
    openFile := fun _ => .noFd,
    openCache1 := .ok (), openCache2 := .ok () }

theorem iconSearchOrder_witness :
    findIconPath envIconW "foo" =
      ((iconCandidates envIconW.home ["Adwaita"] [] (stripExt "foo")).find?
        envIconW.stat).getD (stripExt "foo") ∧
    findIconPath envIconW "foo" = "/h/.local/share/icons/hicolor/48x48/apps/foo.png" :=
  ⟨iconSearchOrder envIconW "foo" ["Adwaita"] [] (by decide) (by decide) (by decide),
   by decide⟩

/-- Environment where no path exists at all and every directory lists
empty. -/
def envIconAbsMiss : Env :=
  { home := "/home/u", refresh := true, loadFile := none,
    stat := fun _ => false,
    readdir := fun _ => some [],
    openFile := fun _ => .noFd,
    openCache1 := .ok (), openCache2 := .ok () }

/-- C10: an absolute icon name that does not exist on disk is not an error
and is not returned unchanged: the whole absolute string is
extension-stripped and searched as an ordinary theme icon name, so with no
existing candidate the extension-stripped absolute path is returned. -/
theorem absoluteIconFallback (env : Env) (iconName : String) (tu ts : List String)
    (hu : env.readdir (env.home ++ "/.local/share/icons") = some tu)
    (hs : env.readdir "/usr/share/icons" = some ts)
    (_habs : jsStartsWith iconName "/" = true)
    (hstat : env.stat iconName = false) :
    findIconPath env iconName =
      ((iconCandidates env.home tu ts (stripExt iconName)).find? env.stat).getD
        (stripExt iconName) :=
  findIconPath_eq_candidates env iconName tu ts hu hs (Or.inr hstat)

theorem absoluteIconFallback_witness :
    findIconPath envIconAbsMiss "/a/b.png" =
      ((iconCandidates envIconAbsMiss.home [] [] (stripExt "/a/b.png")).find?
        envIconAbsMiss.stat).getD (stripExt "/a/b.png") ∧
    findIconPath envIconAbsMiss "/a/b.png" = "/a/b" :=
  ⟨absoluteIconFallback envIconAbsMiss "/a/b.png" [] [] (by decide) (by decide)
    (by decide) (by decide),
   by decide⟩

/-- C6: `parseExecField` joins with single spaces the tokens of its value
(tokenized on whitespace with double-quoted spans kept whole) that do not
begin with a percent sign followed by a letter; the surviving tokens are a
sublist of the token stream, so their order is preserved; in particular
`"app %f --flag"` yields `"app --flag"` and a quoted span survives whole. -/
theorem parseExecField_spec :
    (∀ execValue : String,
      parseExecField execValue =
        jsJoin " " ((execTokens execValue).filter (fun t => !isFieldCodeToken t)) ∧
      List.Sublist ((execTokens execValue).filter (fun t => !isFieldCodeToken t))
        (execTokens execValue)) ∧
    parseExecField "app %f --flag" = "app --flag" ∧
    execTokens "app %f --flag" = ["app", "%f", "--flag"] ∧
    parseExecField "\"my app\" %U file" = "\"my app\" file" :=
  ⟨fun _ => ⟨rfl, List.filter_sublist _⟩, by decide, by decide, by decide⟩

/-- Environment in which both desktop directories contain a file named
`app.desktop`. -/
def envDirs : Env :=
  { home := "/home/u", refresh := true, loadFile := none,
    stat := fun _ => false,
    readdir := fun d =>
      if d == "/usr/share/applications" || d == "/home/u/.local/share/applications"
      then some ["app.desktop"] else none,
    openFile := fun _ => .noFd,
    openCache1 := .ok (), openCache2 := .ok () }

/-- C2 counterexample: `DESKTOP_DIRS` lists the system-wide directory
first, and on a collision of `app.desktop` the collected path is the
system-wide one, not the user-local one the claim predicts. -/
theorem desktopDirs_order_counterexample :
    DESKTOP_DIRS envDirs = ["/usr/share/applications", "/home/u/.local/share/applications"] ∧
    collectDesktopFiles envDirs (DESKTOP_DIRS envDirs) =
      ["/usr/share/applications/app.desktop"] ∧
    "/home/u/.local/share/applications/app.desktop" ∉
      collectDesktopFiles envDirs (DESKTOP_DIRS envDirs) := by
  refine ⟨by decide, by decide, by decide⟩

/-- C2 (amended): the Menu Builder passes the fixed directory pair with the
system-wide directory first and the user-local directory second, so on a
filename collision the system-wide file is the one collected and parsed. -/
theorem desktopDirs_order (env : Env) (f : String)
    (hsys : env.readdir "/usr/share/applications" = some [f])
    (husr : env.readdir (env.home ++ "/.local/share/applications") = some [f])
    (hdesk : jsEndsWith f ".desktop" = true) :
    DESKTOP_DIRS env =
      ["/usr/share/applications", env.home ++ "/.local/share/applications"] ∧
    collectDesktopFiles env (DESKTOP_DIRS env) = ["/usr/share/applications" ++ "/" ++ f] ∧
    (prepareAppsMenu env).1 =
      (parseDesktopFiles env ["/usr/share/applications" ++ "/" ++ f]).1 := by
  have hc : collectDesktopFiles env (DESKTOP_DIRS env) =
      ["/usr/share/applications" ++ "/" ++ f] := by
    rw [DESKTOP_DIRS, collectDesktopFiles]
    simp [hsys, husr, hdesk, List.contains]
  exact ⟨rfl, hc, by rw [prepareAppsMenu, hc]⟩

theorem desktopDirs_order_witness :
    DESKTOP_DIRS envDirs =
      ["/usr/share/applications", envDirs.home ++ "/.local/share/applications"] ∧
    collectDesktopFiles envDirs (DESKTOP_DIRS envDirs) =
      ["/usr/share/applications" ++ "/" ++ "app.desktop"] ∧
    (prepareAppsMenu envDirs).1 =
      (parseDesktopFiles envDirs ["/usr/share/applications" ++ "/" ++ "app.desktop"]).1 :=
  desktopDirs_order envDirs "app.desktop" (by decide) (by decide) (by decide)

theorem keyCount_pos (st : AppData) : 0 < st.keyCount := by
  unfold AppData.keyCount
  omega

theorem parseDesktopFile_content (env : Env) (filePath : String) (lines : List String)
    (hopen : env.openFile filePath = .content lines) :
    parseDesktopFile env filePath =
      (if 0 < (extractDesktopEntryData env lines).keyCount &&
          !(extractDesktopEntryData env lines).noDisplay &&
          (extractDesktopEntryData env lines).exec.getD "" ≠ ""
       then (some ((extractDesktopEntryData env lines).toRecord filePath), [])
       else (none, [])) := by
  rw [parseDesktopFile, hopen]

theorem parseDesktopFiles_eq (env : Env) (filePaths : List String) :
    parseDesktopFiles env filePaths =
      (filePaths.filterMap (fun p => (parseDesktopFile env p).1),
       (filePaths.map (fun p => (parseDesktopFile env p).2)).flatten) := by
  suffices h : ∀ (paths : List String) (acc : List AppRecord × List String),
      paths.foldl
        (fun acc filePath =>
          let r := parseDesktopFile env filePath
          (match r.1 with
           | some appEntry => acc.1 ++ [appEntry]
           | none => acc.1,
           acc.2 ++ r.2))
        acc =
      (acc.1 ++ paths.filterMap (fun p => (parseDesktopFile env p).1),
       acc.2 ++ (paths.map (fun p => (parseDesktopFile env p).2)).flatten) by
    rw [parseDesktopFiles, h]
    simp
  intro paths
  induction paths with
  | nil => intro acc; simp
  | cons p ps ih =>
    intro acc
    rw [List.foldl_cons, ih]
    cases hp : (parseDesktopFile env p).1 <;>
      simp [hp, List.filterMap_cons, List.append_assoc]

/-- Environment with one readable descriptor file that has an `Exec` field
but no `Name` field. -/
def envNoName : Env :=
  { home := "/home/u", refresh := true, loadFile := none,
    stat := fun _ => false,
    readdir := fun _ => none,
    openFile := fun p =>
      if p == "/apps/x.desktop" then .content ["[Desktop Entry]", "Exec=app"] else .noFd,
    openCache1 := .ok (), openCache2 := .ok () }

/-- C1 counterexample: a descriptor file with a non-empty `Exec` and no
`Name` at all still yields a record that is included, so inclusion does not
require a non-empty name and a well-formed no-display file with non-empty
`Exec` can produce a record with no name. -/
theorem parseDesktopFile_inclusion_counterexample :
    (parseDesktopFile envNoName "/apps/x.desktop").1 =
      some { name := none, description := none, exec := some "app", icon := none,
             terminal := none, category := none, keywords := none,
             path := "/apps/x.desktop" } ∧
    (parseDesktopFile envNoName "/apps/x.desktop").1.map AppRecord.name = some none := by
  refine ⟨by decide, by decide⟩

/-- C1 (amended): for a readable descriptor file, the parsed record is
included exactly when the extracted hidden flag is false and the extracted
exec command is a non-empty string; a name is not required.  An included
record is the extracted data plus the source path, and its exec command is
non-empty. -/
theorem parseDesktopFile_inclusion (env : Env) (filePath : String) (lines : List String)
    (hopen : env.openFile filePath = .content lines) :
    ((parseDesktopFile env filePath).1.isSome ↔
      ((extractDesktopEntryData env lines).noDisplay = false ∧
        (extractDesktopEntryData env lines).exec.getD "" ≠ "")) ∧
    (∀ r, (parseDesktopFile env filePath).1 = some r →
      r = (extractDesktopEntryData env lines).toRecord filePath ∧
        r.exec.getD "" ≠ "") := by
  have hpos : 0 < (extractDesktopEntryData env lines).keyCount := keyCount_pos _
  rw [parseDesktopFile_content env filePath lines hopen]
  by_cases h1 : (extractDesktopEntryData env lines).noDisplay <;>
    by_cases h2 : (extractDesktopEntryData env lines).exec.getD "" = "" <;>
      constructor <;>
        simp_all [AppData.toRecord]

theorem parseDesktopFile_inclusion_witness :
    ((parseDesktopFile envNoName "/apps/x.desktop").1.isSome ↔
      ((extractDesktopEntryData envNoName ["[Desktop Entry]", "Exec=app"]).noDisplay = false ∧
        (extractDesktopEntryData envNoName ["[Desktop Entry]", "Exec=app"]).exec.getD "" ≠ "")) ∧
    (∀ r, (parseDesktopFile envNoName "/apps/x.desktop").1 = some r →
      r = (extractDesktopEntryData envNoName ["[Desktop Entry]", "Exec=app"]).toRecord
          "/apps/x.desktop" ∧
        r.exec.getD "" ≠ "") :=
  parseDesktopFile_inclusion envNoName "/apps/x.desktop" ["[Desktop Entry]", "Exec=app"]
    (by decide)

/-- Environment with one unopenable file, one file whose processing raises,
and one good file. -/
def envSkip : Env :=
  { home := "/home/u", refresh := true, loadFile := none,
    stat := fun _ => false,
    readdir := fun _ => none,
    openFile := fun p =>
      if p == "/apps/good.desktop" then .content ["[Desktop Entry]", "Exec=ok"]
      else if p == "/apps/bad.desktop" then .raises
      else .noFd,
    openCache1 := .ok (), openCache2 := .ok () }

/-- C9 counterexample: a descriptor file that cannot be opened is skipped
with an empty diagnostic log, so no diagnostic notice is produced for the
cannot-open case, contrary to the claim. -/
theorem parseFailureSkip_counterexample :
    parseDesktopFile envSkip "/apps/none.desktop" = (none, []) := by decide

/-- C9 (amended): a file that cannot be opened is skipped silently; a file
whose processing raises an unexpected error is skipped with the diagnostic
notice; either way it contributes nothing to the output, the build never
aborts, and every other file is still processed. -/
theorem parseFailureSkip (env : Env) (filePath : String) (paths1 paths2 : List String) :
    (env.openFile filePath = .noFd → parseDesktopFile env filePath = (none, [])) ∧
    (env.openFile filePath = .raises →
      parseDesktopFile env filePath = (none, ["Failed to parse: " ++ filePath ++ "."])) ∧
    ((parseDesktopFile env filePath).1 = none →
      (parseDesktopFiles env (paths1 ++ filePath :: paths2)).1 =
        (parseDesktopFiles env paths1).1 ++ (parseDesktopFiles env paths2).1) := by
  refine ⟨fun h => by rw [parseDesktopFile, h], fun h => by rw [parseDesktopFile, h], fun h => ?_⟩
  simp [parseDesktopFiles_eq, List.filterMap_append, List.filterMap_cons, h]

theorem parseFailureSkip_witness :
    parseDesktopFile envSkip "/apps/none.desktop" = (none, []) ∧
    parseDesktopFile envSkip "/apps/bad.desktop" =
      (none, ["Failed to parse: " ++ "/apps/bad.desktop" ++ "."]) ∧
    (parseDesktopFiles envSkip
        (["/apps/good.desktop"] ++ "/apps/bad.desktop" :: ["/apps/good.desktop"])).1 =
      (parseDesktopFiles envSkip ["/apps/good.desktop"]).1 ++
        (parseDesktopFiles envSkip ["/apps/good.desktop"]).1 :=
  ⟨(parseFailureSkip envSkip "/apps/none.desktop" [] []).1 (by decide),
   (parseFailureSkip envSkip "/apps/bad.desktop" [] []).2.1 (by decide),
   (parseFailureSkip envSkip "/apps/bad.desktop" ["/apps/good.desktop"]
      ["/apps/good.desktop"]).2.2 (by decide)⟩

/-- Environment with a non-empty but undecodable cache file. -/
def envBadCache : Env :=
  { home := "/home/u", refresh := false, loadFile := some "garbage",
    stat := fun _ => false, readdir := fun _ => none,
    openFile := fun _ => .noFd,
    openCache1 := .ok (), openCache2 := .ok () }

/-- C3 counterexample: with `forceRefresh` false and an existing cache file
whose contents do not decode, `getAppMenu` raises the decode error instead
of invoking the Menu Builder. -/
theorem cacheDecodeFailure_counterexample :
    getAppMenu envBadCache = .error .jsonParseError := rfl

/-- C3 (corrected): with no forced refresh, a truthy read followed by a
successful decode returns the decoded structure unmodified; a failed or
empty read rebuilds through the Menu Builder; but a truthy read whose
decode fails propagates the decode error and does not rebuild. -/
theorem cacheDecodeFailure_behavior (env : Env) (s : String) :
    (env.refresh = false → env.loadFile = some s → s ≠ "" → parseJson s = none →
      getAppMenu env = .error .jsonParseError) ∧
    (env.refresh = false → env.loadFile = some s → s ≠ "" → ∀ j, parseJson s = some j →
      getAppMenu env = .ok (.fromCache j)) ∧
    (env.refresh = false → env.loadFile.getD "" = "" → env.openCache1 = .ok () →
      getAppMenu env =
        .ok (.fresh (prepareAppsMenu env).1 (prepareAppsMenu env).2 false
          (encodeAppMenu (prepareAppsMenu env).1))) := by
  refine ⟨fun hr hl hs hp => ?_, fun hr hl hs j hp => ?_, fun hr hl h1 => ?_⟩
  · rw [getAppMenu, hr, hl]
    simp only [Option.getD_some]
    rw [if_pos (by simp [hs]), hp]
  · rw [getAppMenu, hr, hl]
    simp only [Option.getD_some]
    rw [if_pos (by simp [hs]), hp]
  · rw [getAppMenu, if_neg (by simp [hl]), h1]

/-- Environment with a valid cache file containing an empty menu. -/
def envGoodCache : Env :=
  { home := "/home/u", refresh := false,
    loadFile := some (stringify (.obj (.cons "Apps" (.arr .nil) .nil))),
    stat := fun _ => false, readdir := fun _ => none,
    openFile := fun _ => .noFd,
    openCache1 := .ok (), openCache2 := .ok () }

/-- Environment with a missing cache file and a writable cache location. -/
def envRebuild : Env :=
  { home := "/home/u", refresh := false, loadFile := none,
    stat := fun _ => false, readdir := fun _ => none,
    openFile := fun _ => .noFd,
    openCache1 := .ok (), openCache2 := .ok () }

theorem cacheDecodeFailure_behavior_witness :
    getAppMenu envBadCache = .error .jsonParseError ∧
    getAppMenu envGoodCache = .ok (.fromCache (.obj (.cons "Apps" (.arr .nil) .nil))) ∧
    getAppMenu envRebuild =
      .ok (.fresh (prepareAppsMenu envRebuild).1 (prepareAppsMenu envRebuild).2 false
        (encodeAppMenu (prepareAppsMenu envRebuild).1)) :=
  ⟨(cacheDecodeFailure_behavior envBadCache "garbage").1 rfl rfl (by decide) rfl,
   (cacheDecodeFailure_behavior envGoodCache
      (stringify (.obj (.cons "Apps" (.arr .nil) .nil)))).2.1 rfl rfl (by decide)
      (.obj (.cons "Apps" (.arr .nil) .nil)) rfl,
   (cacheDecodeFailure_behavior envRebuild "").2.2 rfl rfl rfl⟩

/-- C7: when the menu is being rebuilt, a first cache-open failure with
error code 2 leads to `ensureDir` and exactly one retry, whose success
returns the fresh structure; a failing retry raises an unrecoverable error
whose message names the cache file path and carries the error code of the
failed retry. -/
theorem cacheWriteRetry (env : Env) (e1 e2 : Nat)
    (hread : env.refresh = true ∨ env.loadFile.getD "" = "") :
    (env.openCache1 = .error 2 → env.openCache2 = .ok () →
      getAppMenu env =
        .ok (.fresh (prepareAppsMenu env).1 (prepareAppsMenu env).2 true
          (encodeAppMenu (prepareAppsMenu env).1))) ∧
    (env.openCache1 = .error e1 → env.openCache2 = .error e2 →
      getAppMenu env = .error (.openError (openErrMsg (cacheFilePath env) e2)) ∧
      (∃ a b, openErrMsg (cacheFilePath env) e2 = a ++ cacheFilePath env ++ b) ∧
      (∃ c, openErrMsg (cacheFilePath env) e2 = c ++ toString e2)) := by
  have hcond : (!env.refresh && env.loadFile.getD "" != "") = false := by
    rcases hread with h | h <;> simp [h]
  refine ⟨fun h1 h2 => ?_, fun h1 h2 => ?_⟩
  · rw [getAppMenu, hcond]
    simp only [Bool.false_eq_true, if_false]
    rw [h1, h2]
    rfl
  · refine ⟨?_, ⟨"Failed to open file \"", "\".\nError code: " ++ toString e2, ?_⟩,
      ⟨"Failed to open file \"" ++ cacheFilePath env ++ "\".\nError code: ", rfl⟩⟩
    · rw [getAppMenu, hcond]
      simp only [Bool.false_eq_true, if_false]
      rw [h1, h2]
    · simp [openErrMsg, String.append_assoc]

/-- Environment whose first cache open fails with the missing-directory
code and whose retry succeeds. -/
def envRetryOk : Env :=
  { home := "/home/u", refresh := true, loadFile := none,
    stat := fun _ => false, readdir := fun _ => none,
    openFile := fun _ => .noFd,
    openCache1 := .error 2, openCache2 := .ok () }

/-- Environment whose cache opens fail twice, with code 13 on the retry. -/
def envRetryFail : Env :=
  { home := "/home/u", refresh := true, loadFile := none,
    stat := fun _ => false, readdir := fun _ => none,
    openFile := fun _ => .noFd,
    openCache1 := .error 2, openCache2 := .error 13 }

theorem cacheWriteRetry_witness :
    getAppMenu envRetryOk =
      .ok (.fresh (prepareAppsMenu envRetryOk).1 (prepareAppsMenu envRetryOk).2 true
        (encodeAppMenu (prepareAppsMenu envRetryOk).1)) ∧
    (getAppMenu envRetryFail =
      .error (.openError (openErrMsg (cacheFilePath envRetryFail) 13)) ∧
      (∃ a b, openErrMsg (cacheFilePath envRetryFail) 13 =
        a ++ cacheFilePath envRetryFail ++ b) ∧
      (∃ c, openErrMsg (cacheFilePath envRetryFail) 13 = c ++ toString 13)) :=
  ⟨(cacheWriteRetry envRetryOk 2 0 (Or.inl rfl)).1 rfl rfl,
   (cacheWriteRetry envRetryFail 2 13 (Or.inl rfl)).2 rfl rfl⟩

/-- The seven recognized field names other than the hidden flag. -/
def SEVEN_KEYS : List String :=
  ["Name", "Comment", "Exec", "Icon", "Terminal", "Categories", "Keywords"]

/-- All recognized field names of the dispatch table. -/
def RECOGNIZED_KEYS : List String := SEVEN_KEYS ++ ["NoDisplay"]

/-- The key of a line, when it has a separator. -/
def lineKeyOf (line : String) : Option String :=
  (splitKV line).map Prod.fst

/-- Number of lines whose key is the given name. -/
def countKey (k : String) (lines : List String) : Nat :=
  lines.countP (fun line => lineKeyOf line == some k)

/-- Whether the field of a recognized non-hidden key has been assigned. -/
def fieldSet (st : AppData) (k : String) : Bool :=
  if k = "Name" then st.name.isSome
  else if k = "Comment" then st.description.isSome
  else if k = "Exec" then st.exec.isSome
  else if k = "Icon" then st.icon.isSome
  else if k = "Terminal" then st.terminal.isSome
  else if k = "Categories" then st.category.isSome
  else if k = "Keywords" then st.keywords.isSome
  else false

theorem optCount_le_one {α : Type} (o : Option α) : optCount o ≤ 1 := by
  cases o <;> simp [optCount]

theorem optCount_eq_one_iff {α : Type} (o : Option α) :
    optCount o = 1 ↔ o.isSome = true := by
  cases o <;> simp [optCount]

theorem fieldSet_eq_name (st : AppData) : fieldSet st "Name" = st.name.isSome := rfl

theorem fieldSet_eq_comment (st : AppData) : fieldSet st "Comment" = st.description.isSome := by
  simp +decide [fieldSet]

theorem fieldSet_eq_exec (st : AppData) : fieldSet st "Exec" = st.exec.isSome := by
  simp +decide [fieldSet]

theorem fieldSet_eq_icon (st : AppData) : fieldSet st "Icon" = st.icon.isSome := by
  simp +decide [fieldSet]

theorem fieldSet_eq_terminal (st : AppData) : fieldSet st "Terminal" = st.terminal.isSome := by
  simp +decide [fieldSet]

theorem fieldSet_eq_categories (st : AppData) : fieldSet st "Categories" = st.category.isSome := by
  simp +decide [fieldSet]

theorem fieldSet_eq_keywords (st : AppData) : fieldSet st "Keywords" = st.keywords.isSome := by
  simp +decide [fieldSet]

theorem keyCount_threshold (st : AppData) :
    REQUIRED_FIELDS + 1 ≤ st.keyCount ↔ ∀ k ∈ SEVEN_KEYS, fieldSet st k = true := by
  have b1 := optCount_le_one st.name
  have b2 := optCount_le_one st.description
  have b3 := optCount_le_one st.exec
  have b4 := optCount_le_one st.icon
  have b5 := optCount_le_one st.terminal
  have b6 := optCount_le_one st.category
  have b7 := optCount_le_one st.keywords
  rw [AppData.keyCount, REQUIRED_FIELDS]
  constructor
  · intro h k hk
    simp only [SEVEN_KEYS, List.mem_cons, List.not_mem_nil, or_false] at hk
    rcases hk with rfl | rfl | rfl | rfl | rfl | rfl | rfl
    · rw [fieldSet_eq_name, ← optCount_eq_one_iff]; omega
    · rw [fieldSet_eq_comment, ← optCount_eq_one_iff]; omega
    · rw [fieldSet_eq_exec, ← optCount_eq_one_iff]; omega
    · rw [fieldSet_eq_icon, ← optCount_eq_one_iff]; omega
    · rw [fieldSet_eq_terminal, ← optCount_eq_one_iff]; omega
    · rw [fieldSet_eq_categories, ← optCount_eq_one_iff]; omega
    · rw [fieldSet_eq_keywords, ← optCount_eq_one_iff]; omega
  · intro h
    have h1 := h "Name" (by decide)
    have h2 := h "Comment" (by decide)
    have h3 := h "Exec" (by decide)
    have h4 := h "Icon" (by decide)
    have h5 := h "Terminal" (by decide)
    have h6 := h "Categories" (by decide)
    have h7 := h "Keywords" (by decide)
    rw [fieldSet_eq_name, ← optCount_eq_one_iff] at h1
    rw [fieldSet_eq_comment, ← optCount_eq_one_iff] at h2
    rw [fieldSet_eq_exec, ← optCount_eq_one_iff] at h3
    rw [fieldSet_eq_icon, ← optCount_eq_one_iff] at h4
    rw [fieldSet_eq_terminal, ← optCount_eq_one_iff] at h5
    rw [fieldSet_eq_categories, ← optCount_eq_one_iff] at h6
    rw [fieldSet_eq_keywords, ← optCount_eq_one_iff] at h7
    omega

theorem applyField_eq_name (env : Env) (st : AppData) (v : String) :
    applyField env st "Name" v = { st with name := some ("• " ++ v) } := by
  simp +decide [applyField]

theorem applyField_eq_comment (env : Env) (st : AppData) (v : String) :
    applyField env st "Comment" v = { st with description := some v } := by
  simp +decide [applyField]

theorem applyField_eq_exec (env : Env) (st : AppData) (v : String) :
    applyField env st "Exec" v = { st with exec := some (parseExecField v) } := by
  simp +decide [applyField]

theorem applyField_eq_icon (env : Env) (st : AppData) (v : String) :
    applyField env st "Icon" v = { st with icon := some (findIconPath env v) } := by
  simp +decide [applyField]

theorem applyField_eq_terminal (env : Env) (st : AppData) (v : String) :
    applyField env st "Terminal" v = { st with terminal := some (jsToLower v = "true") } := by
  simp +decide [applyField]

theorem applyField_eq_noDisplay (env : Env) (st : AppData) (v : String) :
    applyField env st "NoDisplay" v = { st with noDisplay := (jsToLower v = "true") } := by
  simp +decide [applyField]

theorem applyField_eq_categories (env : Env) (st : AppData) (v : String) :
    applyField env st "Categories" v = { st with category := some (parseCategoriesField v) } := by
  simp +decide [applyField]

theorem applyField_eq_keywords (env : Env) (st : AppData) (v : String) :
    applyField env st "Keywords" v = { st with keywords := some (parseKeywordsField v) } := by
  simp +decide [applyField]

theorem applyField_unrecognized (env : Env) (st : AppData) (k v : String)
    (h : ∀ kr ∈ RECOGNIZED_KEYS, k ≠ kr) : applyField env st k v = st := by
  have h1 := h "Name" (by decide)
  have h2 := h "Comment" (by decide)
  have h3 := h "Exec" (by decide)
  have h4 := h "Icon" (by decide)
  have h5 := h "Terminal" (by decide)
  have h6 := h "NoDisplay" (by decide)
  have h7 := h "Categories" (by decide)
  have h8 := h "Keywords" (by decide)
  simp [applyField, h1, h2, h3, h4, h5, h6, h7, h8]

theorem applyField_proj_name (env : Env) (st : AppData) (k v : String) (h : k ≠ "Name") :
    (applyField env st k v).name = st.name := by
  unfold applyField; split_ifs <;> simp_all

theorem applyField_proj_description (env : Env) (st : AppData) (k v : String)
    (h : k ≠ "Comment") : (applyField env st k v).description = st.description := by
  unfold applyField; split_ifs <;> simp_all

theorem applyField_proj_exec (env : Env) (st : AppData) (k v : String) (h : k ≠ "Exec") :
    (applyField env st k v).exec = st.exec := by
  unfold applyField; split_ifs <;> simp_all

theorem applyField_proj_icon (env : Env) (st : AppData) (k v : String) (h : k ≠ "Icon") :
    (applyField env st k v).icon = st.icon := by
  unfold applyField; split_ifs <;> simp_all

theorem applyField_proj_terminal (env : Env) (st : AppData) (k v : String)
    (h : k ≠ "Terminal") : (applyField env st k v).terminal = st.terminal := by
  unfold applyField; split_ifs <;> simp_all

theorem applyField_proj_category (env : Env) (st : AppData) (k v : String)
    (h : k ≠ "Categories") : (applyField env st k v).category = st.category := by
  unfold applyField; split_ifs <;> simp_all

theorem applyField_proj_keywords (env : Env) (st : AppData) (k v : String)
    (h : k ≠ "Keywords") : (applyField env st k v).keywords = st.keywords := by
  unfold applyField; split_ifs <;> simp_all

theorem fieldSet_applyField_creation (env : Env) (st : AppData) (k v k' : String)
    (hk' : k' ∈ SEVEN_KEYS)
    (h : fieldSet (applyField env st k v) k' = true) : fieldSet st k' = true ∨ k' = k := by
  simp only [SEVEN_KEYS, List.mem_cons, List.not_mem_nil, or_false] at hk'
  rcases hk' with rfl | rfl | rfl | rfl | rfl | rfl | rfl
  · by_cases hkk : k = "Name"
    · exact Or.inr hkk.symm
    · rw [fieldSet_eq_name, applyField_proj_name env st k v hkk] at h
      exact Or.inl ((fieldSet_eq_name st).symm ▸ h)
  · by_cases hkk : k = "Comment"
    · exact Or.inr hkk.symm
    · rw [fieldSet_eq_comment, applyField_proj_description env st k v hkk] at h
      exact Or.inl ((fieldSet_eq_comment st).symm ▸ h)
  · by_cases hkk : k = "Exec"
    · exact Or.inr hkk.symm
    · rw [fieldSet_eq_exec, applyField_proj_exec env st k v hkk] at h
      exact Or.inl ((fieldSet_eq_exec st).symm ▸ h)
  · by_cases hkk : k = "Icon"
    · exact Or.inr hkk.symm
    · rw [fieldSet_eq_icon, applyField_proj_icon env st k v hkk] at h
      exact Or.inl ((fieldSet_eq_icon st).symm ▸ h)
  · by_cases hkk : k = "Terminal"
    · exact Or.inr hkk.symm
    · rw [fieldSet_eq_terminal, applyField_proj_terminal env st k v hkk] at h
      exact Or.inl ((fieldSet_eq_terminal st).symm ▸ h)
  · by_cases hkk : k = "Categories"
    · exact Or.inr hkk.symm
    · rw [fieldSet_eq_categories, applyField_proj_category env st k v hkk] at h
      exact Or.inl ((fieldSet_eq_categories st).symm ▸ h)
  · by_cases hkk : k = "Keywords"
    · exact Or.inr hkk.symm
    · rw [fieldSet_eq_keywords, applyField_proj_keywords env st k v hkk] at h
      exact Or.inl ((fieldSet_eq_keywords st).symm ▸ h)

theorem countKey_cons (k line : String) (rest : List String) :
    countKey k (line :: rest) =
      countKey k rest + (if lineKeyOf line == some k then 1 else 0) := by
  simp [countKey, List.countP_cons]

theorem countKey_cons_le (k line : String) (rest : List String) :
    countKey k rest ≤ countKey k (line :: rest) := by
  rw [countKey_cons]; omega

theorem countKey_cons_hit (k line : String) (rest : List String)
    (h : lineKeyOf line = some k) :
    countKey k (line :: rest) = countKey k rest + 1 := by
  rw [countKey_cons, if_pos (by simp [h])]

theorem countKey_pos_of_mem (k line : String) (lines : List String)
    (hm : line ∈ lines) (h : lineKeyOf line = some k) : 0 < countKey k lines := by
  rw [countKey, List.countP_pos_iff]
  exact ⟨line, hm, by simp [h]⟩

theorem extractLoop_cons (env : Env) (line : String) (rest : List String)
    (inDesktopEntry : Bool) (st : AppData) :
    extractLoop env (line :: rest) inDesktopEntry st =
      (if jsStartsWith line "[Desktop Entry]" then extractLoop env rest true st
       else if jsStartsWith line "[" && inDesktopEntry then st
       else if !inDesktopEntry then extractLoop env rest inDesktopEntry st
       else
         match splitKV line with
         | none => extractLoop env rest inDesktopEntry st
         | some (fieldName, fieldValue) =>
           let st' := applyField env st fieldName fieldValue
           if REQUIRED_FIELDS + 1 ≤ st'.keyCount then st'
           else extractLoop env rest inDesktopEntry st') := rfl

theorem extractLoopAll_cons (env : Env) (line : String) (rest : List String)
    (inDesktopEntry : Bool) (st : AppData) :
    extractLoopAll env (line :: rest) inDesktopEntry st =
      (if jsStartsWith line "[Desktop Entry]" then extractLoopAll env rest true st
       else if jsStartsWith line "[" && inDesktopEntry then st
       else if !inDesktopEntry then extractLoopAll env rest inDesktopEntry st
       else
         match splitKV line with
         | none => extractLoopAll env rest inDesktopEntry st
         | some (fieldName, fieldValue) =>
           extractLoopAll env rest inDesktopEntry (applyField env st fieldName fieldValue)) := rfl

theorem extractLoopAll_const (env : Env) (lines : List String) (st : AppData)
    (h : ∀ line ∈ lines, ∀ k0 v0, splitKV line = some (k0, v0) →
      ∀ kr ∈ RECOGNIZED_KEYS, k0 ≠ kr) :
    extractLoopAll env lines true st = st := by
  induction lines generalizing st with
  | nil => rfl
  | cons line rest ih =>
    have hrest : ∀ line2 ∈ rest, ∀ k0 v0, splitKV line2 = some (k0, v0) →
        ∀ kr ∈ RECOGNIZED_KEYS, k0 ≠ kr :=
      fun line2 hm => h line2 (List.mem_cons_of_mem _ hm)
    rw [extractLoopAll_cons]
    by_cases hA : jsStartsWith line "[Desktop Entry]" = true
    · rw [if_pos hA]; exact ih st hrest
    · rw [if_neg hA]
      by_cases hB : (jsStartsWith line "[" && true) = true
      · rw [if_pos hB]
      · rw [if_neg hB, if_neg (by decide : ¬((!true) = true))]
        rcases hkv : splitKV line with _ | ⟨k0, v0⟩
        · exact ih st hrest
        · simp only
          rw [applyField_unrecognized env st k0 v0 (h line (List.mem_cons_self line rest) k0 v0 hkv)]
          exact ih st hrest

theorem extractLoop_eq_all (env : Env) (lines : List String) :
    ∀ (st : AppData) (inEntry : Bool),
    (∀ k ∈ SEVEN_KEYS, (fieldSet st k = true → countKey k lines = 0) ∧ countKey k lines ≤ 1) →
    (∀ n, n ≤ lines.length →
      (∀ k ∈ SEVEN_KEYS, fieldSet st k = true ∨ 0 < countKey k (lines.take n)) →
      countKey "NoDisplay" (lines.drop n) = 0) →
    extractLoop env lines inEntry st = extractLoopAll env lines inEntry st := by
  induction lines with
  | nil => intro st inEntry _ _; rfl
  | cons line rest ih =>
    intro st inEntry H1 H2
    have H1R : ∀ k ∈ SEVEN_KEYS,
        (fieldSet st k = true → countKey k rest = 0) ∧ countKey k rest ≤ 1 := by
      intro k hk
      have hle := countKey_cons_le k line rest
      exact ⟨fun hf => by have h0 := (H1 k hk).1 hf; omega,
        le_trans hle (H1 k hk).2⟩
    have H2R : ∀ n, n ≤ rest.length →
        (∀ k ∈ SEVEN_KEYS, fieldSet st k = true ∨ 0 < countKey k (rest.take n)) →
        countKey "NoDisplay" (rest.drop n) = 0 := by
      intro n hn hc
      have h := H2 (n + 1) (by simp only [List.length_cons]; omega) ?_
      · rwa [List.drop_succ_cons] at h
      · intro k hk
        rcases hc k hk with hf | hcnt
        · exact Or.inl hf
        · right
          rw [List.take_succ_cons]
          have := countKey_cons_le k line (rest.take n)
          omega
    rw [extractLoop_cons, extractLoopAll_cons]
    by_cases hA : jsStartsWith line "[Desktop Entry]" = true
    · rw [if_pos hA, if_pos hA]; exact ih st true H1R H2R
    · rw [if_neg hA, if_neg hA]
      by_cases hB : (jsStartsWith line "[" && inEntry) = true
      · rw [if_pos hB, if_pos hB]
      · rw [if_neg hB, if_neg hB]
        by_cases hC : (!inEntry) = true
        · rw [if_pos hC, if_pos hC]; exact ih st inEntry H1R H2R
        · rw [if_neg hC, if_neg hC]
          have hE : inEntry = true := by revert hC; cases inEntry <;> simp
          subst hE
          rcases hkv : splitKV line with _ | ⟨k, v⟩
          · exact ih st true H1R H2R
          · have hkey : lineKeyOf line = some k := by simp [lineKeyOf, hkv]
            show (if REQUIRED_FIELDS + 1 ≤ (applyField env st k v).keyCount
              then applyField env st k v
              else extractLoop env rest true (applyField env st k v)) =
                extractLoopAll env rest true (applyField env st k v)
            by_cases hth : REQUIRED_FIELDS + 1 ≤ (applyField env st k v).keyCount
            · rw [if_pos hth]
              have hall : ∀ j ∈ SEVEN_KEYS, fieldSet (applyField env st k v) j = true :=
                (keyCount_threshold _).mp hth
              have hseven0 : ∀ j ∈ SEVEN_KEYS, countKey j rest = 0 := by
                intro j hj
                rcases fieldSet_applyField_creation env st k v j hj (hall j hj) with hstj | rfl
                · have h0 := (H1 j hj).1 hstj
                  have hle := countKey_cons_le j line rest
                  omega
                · have hb := (H1 j hj).2
                  rw [countKey_cons_hit j line rest hkey] at hb
                  omega
              have hnd0 : countKey "NoDisplay" rest = 0 := by
                have ht1 : (line :: rest).take 1 = [line] := by simp
                have hd1 : (line :: rest).drop 1 = rest := by simp
                have h := H2 1 (by simp only [List.length_cons]; omega) ?_
                · rwa [hd1] at h
                · intro j hj
                  rcases fieldSet_applyField_creation env st k v j hj (hall j hj) with hstj | rfl
                  · exact Or.inl hstj
                  · right
                    rw [ht1]
                    exact countKey_pos_of_mem j line [line] (List.mem_cons_self line []) hkey
              have hnone : ∀ line2 ∈ rest, ∀ k0 v0, splitKV line2 = some (k0, v0) →
                  ∀ kr ∈ RECOGNIZED_KEYS, k0 ≠ kr := by
                intro line2 hm k0 v0 hkv0 kr hkr heq
                subst heq
                have hpos := countKey_pos_of_mem k0 line2 rest hm (by simp [lineKeyOf, hkv0])
                rw [RECOGNIZED_KEYS] at hkr
                rcases List.mem_append.mp hkr with hin | hin
                · have := hseven0 k0 hin
                  omega
                · have h0 : k0 = "NoDisplay" := by simpa using hin
                  subst h0
                  omega
              exact (extractLoopAll_const env rest (applyField env st k v) hnone).symm
            · rw [if_neg hth]
              apply ih (applyField env st k v) true
              · intro j hj
                constructor
                · intro hf
                  rcases fieldSet_applyField_creation env st k v j hj hf with hstj | rfl
                  · have h0 := (H1 j hj).1 hstj
                    have hle := countKey_cons_le j line rest
                    omega
                  · have hb := (H1 j hj).2
                    rw [countKey_cons_hit j line rest hkey] at hb
                    omega
                · exact le_trans (countKey_cons_le j line rest) (H1 j hj).2
              · intro n hn hc
                have h := H2 (n + 1) (by simp only [List.length_cons]; omega) ?_
                · rwa [List.drop_succ_cons] at h
                · intro j hj
                  rcases hc j hj with hf | hcnt
                  · rcases fieldSet_applyField_creation env st k v j hj hf with hstj | rfl
                    · exact Or.inl hstj
                    · right
                      rw [List.take_succ_cons]
                      exact countKey_pos_of_mem j line (line :: rest.take n)
                        (List.mem_cons_self line (rest.take n)) hkey
                  · right
                    rw [List.take_succ_cons]
                    have := countKey_cons_le j line (rest.take n)
                    omega

theorem fieldSet_default (k : String) : fieldSet {} k = false := by
  unfold fieldSet
  split_ifs <;> rfl

theorem extractLoop_marker_step (env : Env) (line : String) (rest : List String)
    (inEntry : Bool) (st : AppData) (hA : jsStartsWith line "[Desktop Entry]" = true) :
    extractLoop env (line :: rest) inEntry st = extractLoop env rest true st := by
  rw [extractLoop_cons, if_pos hA]

theorem extractLoop_field_step (env : Env) (line : String) (rest : List String)
    (st : AppData) (k v : String)
    (hA : jsStartsWith line "[Desktop Entry]" = false)
    (hB : jsStartsWith line "[" = false)
    (hkv : splitKV line = some (k, v))
    (hth : ¬(REQUIRED_FIELDS + 1 ≤ (applyField env st k v).keyCount)) :
    extractLoop env (line :: rest) true st =
      extractLoop env rest true (applyField env st k v) := by
  rw [extractLoop_cons, if_neg (by simp [hA]), if_neg (by simp [hB]),
    if_neg (by decide : ¬((!true) = true)), hkv]
  exact if_neg hth

theorem extract_nameTwice (env : Env) :
    (extractDesktopEntryData env ["[Desktop Entry]", "Name=A", "Name=B"]).name =
      some "• B" := by
  rw [extractDesktopEntryData,
    extractLoop_marker_step env _ _ _ _ (by decide),
    extractLoop_field_step env "Name=A" _ {} "Name" "A" (by decide) (by decide) (by decide)
      (by rw [applyField_eq_name]; decide),
    applyField_eq_name,
    extractLoop_field_step env "Name=B" _ _ "Name" "B" (by decide) (by decide) (by decide)
      (by rw [applyField_eq_name]; decide),
    applyField_eq_name]
  rfl

/-- C4 (amended): the early stop is transparent for descriptor files with
at most one occurrence per recognized key in which the hidden-flag key does
not occur after all seven other recognized fields have been seen; and when
a key repeats before the stop, the last occurrence is the one honored. -/
theorem earlyStop_transparent :
    (∀ (env : Env) (lines : List String),
      (∀ k ∈ RECOGNIZED_KEYS, countKey k lines ≤ 1) →
      (∀ n, n ≤ lines.length →
        (∀ k ∈ SEVEN_KEYS, 0 < countKey k (lines.take n)) →
        countKey "NoDisplay" (lines.drop n) = 0) →
      extractDesktopEntryData env lines = extractDesktopEntryDataAll env lines) ∧
    (∀ env : Env,
      (extractDesktopEntryData env ["[Desktop Entry]", "Name=A", "Name=B"]).name =
        some "• B") := by
  constructor
  · intro env lines honce hnd
    rw [extractDesktopEntryData, extractDesktopEntryDataAll]
    apply extractLoop_eq_all
    · intro k hk
      refine ⟨fun hf => ?_, honce k (by rw [RECOGNIZED_KEYS]; exact List.mem_append.mpr (Or.inl hk))⟩
      rw [fieldSet_default] at hf
      exact absurd hf (by simp)
    · intro n hn hc
      apply hnd n hn
      intro k hk
      rcases hc k hk with hf | h
      · rw [fieldSet_default] at hf
        exact absurd hf (by simp)
      · exact h
  · exact extract_nameTwice

/-- Environment whose filesystem is entirely empty. -/
def envPlain : Env :=
  { home := "/home/u", refresh := true, loadFile := none,
    stat := fun _ => false, readdir := fun _ => none,
    openFile := fun _ => .noFd,
    openCache1 := .ok (), openCache2 := .ok () }

/-- A well-formed descriptor with one occurrence per key, `NoDisplay=true`
last, after all seven other recognized fields. -/
def demoLines : List String :=
  ["[Desktop Entry]", "Name=n", "Comment=c", "Exec=e", "Icon=i", "Terminal=true",
   "Categories=x", "Keywords=k", "NoDisplay=true"]

/-- C4 counterexample: a repeated `Name` honors the last occurrence before
the stop, not the first; and on a file with at most one occurrence per key
whose `NoDisplay=true` comes after the seven other fields, the early stop
changes the result (the hidden flag stays false, while the reference loop
without the stop reads it as true). -/
theorem earlyStop_counterexample :
    (extractDesktopEntryData envPlain ["[Desktop Entry]", "Name=A", "Name=B"]).name =
      some "• B" ∧
    some "• B" ≠ some "• A" ∧
    (∀ k ∈ RECOGNIZED_KEYS, countKey k demoLines ≤ 1) ∧
    (extractDesktopEntryData envPlain demoLines).noDisplay = false ∧
    (extractDesktopEntryDataAll envPlain demoLines).noDisplay = true := by
  refine ⟨by decide, by decide, by decide, by decide, by decide⟩

theorem earlyStop_transparent_witness :
    extractDesktopEntryData envPlain ["[Desktop Entry]", "Name=a", "Exec=b"] =
      extractDesktopEntryDataAll envPlain ["[Desktop Entry]", "Name=a", "Exec=b"] ∧
    (extractDesktopEntryData envPlain ["[Desktop Entry]", "Name=A", "Name=B"]).name =
      some "• B" :=
  ⟨earlyStop_transparent.1 envPlain ["[Desktop Entry]", "Name=a", "Exec=b"]
      (by decide) (by decide),
   earlyStop_transparent.2 envPlain⟩

theorem hexVal_hexDigit : ∀ n, n < 16 → hexVal (hexDigit n) = some n := by decide

theorem escape_step (c : Char) (rest2 : List Char) :
    parseStrChars (escapeChar c ++ rest2) =
      (parseStrChars rest2).map (fun p => (c :: p.1, p.2)) := by
  unfold escapeChar
  split_ifs with h1 h2 h3 h4 h5 h6 h7 h8
  · subst h1; rw [parseStrChars.eq_def]; simp +decide [unescapeChar]
  · subst h2; rw [parseStrChars.eq_def]; simp +decide [unescapeChar]
  · subst h3; rw [parseStrChars.eq_def]; simp +decide [unescapeChar]
  · subst h4; rw [parseStrChars.eq_def]; simp +decide [unescapeChar]
  · subst h5; rw [parseStrChars.eq_def]; simp +decide [unescapeChar]
  · subst h6; rw [parseStrChars.eq_def]; simp +decide [unescapeChar]
  · subst h7; rw [parseStrChars.eq_def]; simp +decide [unescapeChar]
  · have hdiv : c.toNat / 16 < 16 := by omega
    have hmod : c.toNat % 16 < 16 := by omega
    have h0 : hexVal '0' = some 0 := by decide
    have hof : Char.ofNat (((0 * 16 + 0) * 16 + c.toNat / 16) * 16 + c.toNat % 16) = c := by
      rw [show ((0 * 16 + 0) * 16 + c.toNat / 16) * 16 + c.toNat % 16 = c.toNat from by omega,
        Char.ofNat_toNat]
    have hof2 : Char.ofNat (c.toNat / 16 * 16 + c.toNat % 16) = c := by
      rw [show c.toNat / 16 * 16 + c.toNat % 16 = c.toNat from by omega, Char.ofNat_toNat]
    rw [parseStrChars.eq_def]
    simp +decide [h0, hexVal_hexDigit _ hdiv, hexVal_hexDigit _ hmod, hof, hof2]
  · show parseStrChars (c :: rest2) = (parseStrChars rest2).map (fun p => (c :: p.1, p.2))
    rw [parseStrChars.eq_def]
    simp only []
    rw [if_neg h1, if_neg h2]

theorem parseStrChars_escape (s : List Char) (rest : List Char) :
    parseStrChars ((s.map escapeChar).flatten ++ '"' :: rest) = some (s, rest) := by
  induction s with
  | nil =>
    rw [List.map_nil, List.flatten_nil, List.nil_append, parseStrChars.eq_def]
    simp
  | cons c cs ih =>
    rw [List.map_cons, List.flatten_cons, List.append_assoc, escape_step, ih]
    rfl

mutual
/-- Recursion fuel sufficient to parse the stringification of a value. -/
def needVal : Json → Nat
  | .null => 1
  | .bool _ => 1
  | .str _ => 1
  | .arr .nil => 1
  | .arr (.cons e es) => 1 + max (needVal e) (needElems es)
  | .obj .nil => 1
  | .obj (.cons _ v fs) => 1 + max (1 + needVal v) (needFields fs)
/-- Fuel sufficient to parse a stringified array tail. -/
def needElems : JsonArr → Nat
  | .nil => 1
  | .cons e es => 1 + max (needVal e) (needElems es)
/-- Fuel sufficient to parse a stringified object tail. -/
def needFields : JsonObj → Nat
  | .nil => 1
  | .cons _ v fs => 1 + max (1 + needVal v) (needFields fs)
end

/-- Character that can begin the stringification of a value. -/
def jsonStartChar (c : Char) : Prop :=
  c = 'n' ∨ c = 't' ∨ c = 'f' ∨ c = '"' ∨ c = '[' ∨ c = '{'

theorem jsonChars_head (j : Json) :
    ∃ c t, jsonChars j = c :: t ∧ jsonStartChar c := by
  cases j with
  | null => exact ⟨'n', _, rfl, Or.inl rfl⟩
  | bool b =>
    cases b
    · exact ⟨'f', _, rfl, Or.inr (Or.inr (Or.inl rfl))⟩
    · exact ⟨'t', _, rfl, Or.inr (Or.inl rfl)⟩
  | str s => exact ⟨'"', _, rfl, Or.inr (Or.inr (Or.inr (Or.inl rfl)))⟩
  | arr es =>
    cases es
    · exact ⟨'[', _, rfl, Or.inr (Or.inr (Or.inr (Or.inr (Or.inl rfl))))⟩
    · exact ⟨'[', _, rfl, Or.inr (Or.inr (Or.inr (Or.inr (Or.inl rfl))))⟩
  | obj fs =>
    cases fs
    · exact ⟨'{', _, rfl, Or.inr (Or.inr (Or.inr (Or.inr (Or.inr rfl))))⟩
    · exact ⟨'{', _, rfl, Or.inr (Or.inr (Or.inr (Or.inr (Or.inr rfl))))⟩

theorem jsonStartChar_not_ws {c : Char} (h : jsonStartChar c) : isJsonWs c = false := by
  rcases h with rfl | rfl | rfl | rfl | rfl | rfl <;> decide

theorem jsonStartChar_ne_rbracket {c : Char} (h : jsonStartChar c) : c ≠ ']' := by
  rcases h with rfl | rfl | rfl | rfl | rfl | rfl <;> decide

theorem jsonStartChar_ne_rbrace {c : Char} (h : jsonStartChar c) : c ≠ '}' := by
  rcases h with rfl | rfl | rfl | rfl | rfl | rfl <;> decide

theorem skipWs_cons_not_ws {c : Char} (l : List Char) (h : isJsonWs c = false) :
    skipWs (c :: l) = c :: l := by
  simp [skipWs, List.dropWhile_cons, h]

theorem skipWs_jsonChars (j : Json) (r : List Char) :
    skipWs (jsonChars j ++ r) = jsonChars j ++ r := by
  obtain ⟨c, t, hj, hc⟩ := jsonChars_head j
  rw [hj, List.cons_append, skipWs_cons_not_ws _ (jsonStartChar_not_ws hc)]

theorem parseVal_null_step (fuel : Nat) (rest : List Char) :
    parseVal (fuel + 1) ('n' :: 'u' :: 'l' :: 'l' :: rest) = some (.null, rest) := by
  rw [parseVal.eq_def]
  simp +decide [jsStartsWithList]

theorem parseVal_true_step (fuel : Nat) (rest : List Char) :
    parseVal (fuel + 1) ('t' :: 'r' :: 'u' :: 'e' :: rest) = some (.bool true, rest) := by
  rw [parseVal.eq_def]
  simp +decide [jsStartsWithList]

theorem parseVal_false_step (fuel : Nat) (rest : List Char) :
    parseVal (fuel + 1) ('f' :: 'a' :: 'l' :: 's' :: 'e' :: rest) =
      some (.bool false, rest) := by
  rw [parseVal.eq_def]
  simp +decide [jsStartsWithList]

theorem parseVal_str_step (fuel : Nat) (rest : List Char) :
    parseVal (fuel + 1) ('"' :: rest) =
      (parseStrChars rest).map (fun p => (.str ⟨p.1⟩, p.2)) := by
  rw [parseVal.eq_def]
  simp +decide

theorem parseVal_arr_nil_step (fuel : Nat) (rest rest2 : List Char)
    (h : skipWs rest = ']' :: rest2) :
    parseVal (fuel + 1) ('[' :: rest) = some (.arr .nil, rest2) := by
  rw [parseVal.eq_def]
  simp +decide [h]

theorem parseVal_arr_cons_step (fuel : Nat) (rest rest2 : List Char) (c2 : Char)
    (h : skipWs rest = c2 :: rest2) (hne : c2 ≠ ']') :
    parseVal (fuel + 1) ('[' :: rest) =
      (match parseVal fuel (c2 :: rest2) with
       | none => none
       | some (v, rest3) =>
         match parseElems fuel rest3 with
         | none => none
         | some (vs, rest4) => some (.arr (.cons v vs), rest4)) := by
  rw [parseVal.eq_def]
  simp +decide [h, hne]

theorem parseVal_obj_nil_step (fuel : Nat) (rest rest2 : List Char)
    (h : skipWs rest = '}' :: rest2) :
    parseVal (fuel + 1) ('{' :: rest) = some (.obj .nil, rest2) := by
  rw [parseVal.eq_def]
  simp +decide [h]

theorem parseVal_obj_cons_step (fuel : Nat) (rest rest2 : List Char) (c2 : Char)
    (h : skipWs rest = c2 :: rest2) (hne : c2 ≠ '}') :
    parseVal (fuel + 1) ('{' :: rest) =
      (match parseMember fuel (c2 :: rest2) with
       | none => none
       | some (k, v, rest3) =>
         match parseFieldsTail fuel rest3 with
         | none => none
         | some (fs, rest4) => some (.obj (.cons k v fs), rest4)) := by
  rw [parseVal.eq_def]
  simp +decide [h, hne]

theorem parseMember_step (fuel : Nat) (rest : List Char) :
    parseMember (fuel + 1) ('"' :: rest) =
      (match parseStrChars rest with
       | none => none
       | some (k, rest2) =>
         match skipWs rest2 with
         | [] => none
         | c2 :: rest3 =>
           if c2 = ':' then
             match parseVal fuel (skipWs rest3) with
             | none => none
             | some (v, rest4) => some (⟨k⟩, v, rest4)
           else none) := by
  rw [parseMember.eq_def]
  simp +decide

theorem parseElems_nil_step (fuel : Nat) (cs rest : List Char)
    (h : skipWs cs = ']' :: rest) :
    parseElems (fuel + 1) cs = some (.nil, rest) := by
  rw [parseElems.eq_def]
  simp +decide [h]

theorem parseElems_cons_step (fuel : Nat) (cs rest : List Char)
    (h : skipWs cs = ',' :: rest) :
    parseElems (fuel + 1) cs =
      (match parseVal fuel (skipWs rest) with
       | none => none
       | some (v, rest2) =>
         match parseElems fuel rest2 with
         | none => none
         | some (vs, rest3) => some (.cons v vs, rest3)) := by
  rw [parseElems.eq_def]
  simp +decide [h]

theorem parseFieldsTail_nil_step (fuel : Nat) (cs rest : List Char)
    (h : skipWs cs = '}' :: rest) :
    parseFieldsTail (fuel + 1) cs = some (.nil, rest) := by
  rw [parseFieldsTail.eq_def]
  simp +decide [h]

theorem parseFieldsTail_cons_step (fuel : Nat) (cs rest : List Char)
    (h : skipWs cs = ',' :: rest) :
    parseFieldsTail (fuel + 1) cs =
      (match parseMember fuel (skipWs rest) with
       | none => none
       | some (k, v, rest2) =>
         match parseFieldsTail fuel rest2 with
         | none => none
         | some (fs, rest3) => some (.cons k v fs, rest3)) := by
  rw [parseFieldsTail.eq_def]
  simp +decide [h]

theorem needVal_pos : ∀ j : Json, 1 ≤ needVal j := by
  intro j
  cases j with
  | null => exact le_refl 1
  | bool b => exact le_refl 1
  | str s => exact le_refl 1
  | arr es => cases es <;> simp [needVal]
  | obj fs => cases fs <;> simp [needVal]

theorem needElems_pos : ∀ es : JsonArr, 1 ≤ needElems es := by
  intro es; cases es <;> simp [needElems]

theorem needFields_pos : ∀ fs : JsonObj, 1 ≤ needFields fs := by
  intro fs; cases fs <;> simp [needFields]

theorem rt_all (fuel : Nat) :
    (∀ (j : Json) (rest : List Char), needVal j ≤ fuel →
      parseVal fuel (jsonChars j ++ rest) = some (j, rest)) ∧
    (∀ (es : JsonArr) (rest : List Char), needElems es ≤ fuel →
      parseElems fuel (elemsChars es ++ ']' :: rest) = some (es, rest)) ∧
    (∀ (fs : JsonObj) (rest : List Char), needFields fs ≤ fuel →
      parseFieldsTail fuel (fieldsChars fs ++ '}' :: rest) = some (fs, rest)) ∧
    (∀ (v : Json) (k : String) (rest : List Char), 1 + needVal v ≤ fuel →
      parseMember fuel (quoteChars k ++ ':' :: (jsonChars v ++ rest)) = some (k, v, rest)) := by
  induction fuel with
  | zero =>
    refine ⟨fun j rest h => absurd h ?_, fun es rest h => absurd h ?_,
      fun fs rest h => absurd h ?_, fun v k rest h => absurd h ?_⟩
    · have := needVal_pos j; omega
    · have := needElems_pos es; omega
    · have := needFields_pos fs; omega
    · have := needVal_pos v; omega
  | succ f ih =>
    obtain ⟨ihV, ihE, ihF, ihM⟩ := ih
    refine ⟨?_, ?_, ?_, ?_⟩
    · intro j rest hneed
      cases j with
      | null => exact parseVal_null_step f rest
      | bool b =>
        cases b
        · exact parseVal_false_step f rest
        · exact parseVal_true_step f rest
      | str s =>
        have shape : jsonChars (.str s) ++ rest =
            '"' :: ((s.data.map escapeChar).flatten ++ '"' :: rest) := by
          simp [jsonChars, quoteChars]
        rw [shape, parseVal_str_step, parseStrChars_escape]
        rfl
      | arr es =>
        cases es with
        | nil =>
          have shape : jsonChars (.arr .nil) ++ rest = '[' :: (']' :: rest) := rfl
          rw [shape]
          exact parseVal_arr_nil_step f _ rest (skipWs_cons_not_ws _ (by decide))
        | cons e es =>
          have hne : needVal e ≤ f ∧ needElems es ≤ f := by
            have h1 := Nat.le_max_left (needVal e) (needElems es)
            have h2 := Nat.le_max_right (needVal e) (needElems es)
            simp only [needVal] at hneed
            omega
          obtain ⟨c, t, hj, hc⟩ := jsonChars_head e
          have shape : jsonChars (.arr (.cons e es)) ++ rest =
              '[' :: (jsonChars e ++ (elemsChars es ++ ']' :: rest)) := by
            simp [jsonChars, List.append_assoc]
          rw [shape]
          have hskip : skipWs (jsonChars e ++ (elemsChars es ++ ']' :: rest)) =
              c :: (t ++ (elemsChars es ++ ']' :: rest)) := by
            rw [skipWs_jsonChars, hj, List.cons_append]
          rw [parseVal_arr_cons_step f _ _ c hskip (jsonStartChar_ne_rbracket hc)]
          have h1 : parseVal f (c :: (t ++ (elemsChars es ++ ']' :: rest))) =
              some (e, elemsChars es ++ ']' :: rest) := by
            rw [← List.cons_append, ← hj]
            exact ihV e _ hne.1
          have h2 : parseElems f (elemsChars es ++ ']' :: rest) = some (es, rest) :=
            ihE es rest hne.2
          simp only [h1, h2]
      | obj fs =>
        cases fs with
        | nil =>
          have shape : jsonChars (.obj .nil) ++ rest = '{' :: ('}' :: rest) := rfl
          rw [shape]
          exact parseVal_obj_nil_step f _ rest (skipWs_cons_not_ws _ (by decide))
        | cons k v fs =>
          have hne : 1 + needVal v ≤ f ∧ needFields fs ≤ f := by
            have h1 := Nat.le_max_left (1 + needVal v) (needFields fs)
            have h2 := Nat.le_max_right (1 + needVal v) (needFields fs)
            simp only [needVal] at hneed
            omega
          have shape : jsonChars (.obj (.cons k v fs)) ++ rest =
              '{' :: ('"' :: ((k.data.map escapeChar).flatten ++
                ('"' :: (':' :: (jsonChars v ++ (fieldsChars fs ++ '}' :: rest)))))) := by
            simp [jsonChars, quoteChars, List.append_assoc]
          rw [shape]
          have hq : '"' :: ((k.data.map escapeChar).flatten ++
              ('"' :: (':' :: (jsonChars v ++ (fieldsChars fs ++ '}' :: rest))))) =
              quoteChars k ++ ':' :: (jsonChars v ++ (fieldsChars fs ++ '}' :: rest)) := by
            simp [quoteChars, List.append_assoc]
          have hskip : skipWs ('"' :: ((k.data.map escapeChar).flatten ++
              ('"' :: (':' :: (jsonChars v ++ (fieldsChars fs ++ '}' :: rest)))))) =
              '"' :: ((k.data.map escapeChar).flatten ++
                ('"' :: (':' :: (jsonChars v ++ (fieldsChars fs ++ '}' :: rest))))) :=
            skipWs_cons_not_ws _ (by decide)
          rw [parseVal_obj_cons_step f _ _ '"' hskip (by decide)]
          have h1 : parseMember f ('"' :: ((k.data.map escapeChar).flatten ++
              ('"' :: (':' :: (jsonChars v ++ (fieldsChars fs ++ '}' :: rest)))))) =
              some (k, v, fieldsChars fs ++ '}' :: rest) := by
            rw [hq]
            exact ihM v k _ hne.1
          have h2 : parseFieldsTail f (fieldsChars fs ++ '}' :: rest) = some (fs, rest) :=
            ihF fs rest hne.2
          simp only [h1, h2]
    · intro es rest hneed
      cases es with
      | nil =>
        exact parseElems_nil_step f _ rest (skipWs_cons_not_ws _ (by decide))
      | cons e es =>
        have hne : needVal e ≤ f ∧ needElems es ≤ f := by
          have h1 := Nat.le_max_left (needVal e) (needElems es)
          have h2 := Nat.le_max_right (needVal e) (needElems es)
          simp only [needElems] at hneed
          omega
        have shape : elemsChars (.cons e es) ++ ']' :: rest =
            ',' :: (jsonChars e ++ (elemsChars es ++ ']' :: rest)) := by
          simp [elemsChars, List.append_assoc]
        rw [shape]
        rw [parseElems_cons_step f _ _ (skipWs_cons_not_ws _ (by decide))]
        have h1 : parseVal f (skipWs (jsonChars e ++ (elemsChars es ++ ']' :: rest))) =
            some (e, elemsChars es ++ ']' :: rest) := by
          rw [skipWs_jsonChars]
          exact ihV e _ hne.1
        have h2 : parseElems f (elemsChars es ++ ']' :: rest) = some (es, rest) :=
          ihE es rest hne.2
        simp only [h1, h2]
    · intro fs rest hneed
      cases fs with
      | nil =>
        exact parseFieldsTail_nil_step f _ rest (skipWs_cons_not_ws _ (by decide))
      | cons k v fs =>
        have hne : 1 + needVal v ≤ f ∧ needFields fs ≤ f := by
          have h1 := Nat.le_max_left (1 + needVal v) (needFields fs)
          have h2 := Nat.le_max_right (1 + needVal v) (needFields fs)
          simp only [needFields] at hneed
          omega
        have shape : fieldsChars (.cons k v fs) ++ '}' :: rest =
            ',' :: (quoteChars k ++ ':' :: (jsonChars v ++ (fieldsChars fs ++ '}' :: rest))) := by
          simp [fieldsChars, List.append_assoc]
        rw [shape]
        rw [parseFieldsTail_cons_step f _ _ (skipWs_cons_not_ws _ (by decide))]
        have hqskip : skipWs (quoteChars k ++ ':' :: (jsonChars v ++ (fieldsChars fs ++ '}' :: rest))) =
            quoteChars k ++ ':' :: (jsonChars v ++ (fieldsChars fs ++ '}' :: rest)) := by
          rw [quoteChars, List.cons_append]
          exact skipWs_cons_not_ws _ (by decide)
        have h1 : parseMember f (skipWs (quoteChars k ++ ':' ::
            (jsonChars v ++ (fieldsChars fs ++ '}' :: rest)))) =
            some (k, v, fieldsChars fs ++ '}' :: rest) := by
          rw [hqskip]
          exact ihM v k _ hne.1
        have h2 : parseFieldsTail f (fieldsChars fs ++ '}' :: rest) = some (fs, rest) :=
          ihF fs rest hne.2
        simp only [h1, h2]
    · intro v k rest hneed
      have hv : needVal v ≤ f := by omega
      have shape : quoteChars k ++ ':' :: (jsonChars v ++ rest) =
          '"' :: ((k.data.map escapeChar).flatten ++ '"' :: (':' :: (jsonChars v ++ rest))) := by
        simp [quoteChars, List.append_assoc]
      rw [shape, parseMember_step]
      have h1 : parseStrChars ((k.data.map escapeChar).flatten ++
          '"' :: (':' :: (jsonChars v ++ rest))) =
          some (k.data, ':' :: (jsonChars v ++ rest)) := parseStrChars_escape _ _
      have h2 : skipWs (':' :: (jsonChars v ++ rest)) = ':' :: (jsonChars v ++ rest) :=
        skipWs_cons_not_ws _ (by decide)
      have h3 : parseVal f (skipWs (jsonChars v ++ rest)) = some (v, rest) := by
        rw [skipWs_jsonChars]
        exact ihV v rest hv
      simp only [h1, h2, h3, if_pos]

theorem jsonChars_length_pos (j : Json) : 1 ≤ (jsonChars j).length := by
  obtain ⟨c, t, hj, _⟩ := jsonChars_head j
  rw [hj]
  simp

theorem quoteChars_length (s : String) : 2 ≤ (quoteChars s).length := by
  simp [quoteChars]

mutual
theorem needVal_le (j : Json) : needVal j ≤ (jsonChars j).length := by
  cases j with
  | null => simp only [needVal, jsonChars]; decide
  | bool b => cases b <;> simp only [needVal, jsonChars] <;> decide
  | str s =>
    have := quoteChars_length s
    simp only [needVal, jsonChars]
    omega
  | arr es =>
    cases es with
    | nil => simp [needVal, jsonChars]
    | cons e es =>
      have h1 := needVal_le e
      have h2 := needElems_le es
      simp only [needVal, jsonChars, List.length_append, List.length_cons]
      rcases Nat.le_total (needVal e) (needElems es) with hle | hle
      · rw [Nat.max_eq_right hle]; omega
      · rw [Nat.max_eq_left hle]; omega
  | obj fs =>
    cases fs with
    | nil => simp [needVal, jsonChars]
    | cons k v fs =>
      have h1 := needVal_le v
      have h2 := needFields_le fs
      have h3 := quoteChars_length k
      simp only [needVal, jsonChars, List.length_append, List.length_cons]
      rcases Nat.le_total (1 + needVal v) (needFields fs) with hle | hle
      · rw [Nat.max_eq_right hle]; omega
      · rw [Nat.max_eq_left hle]; omega
theorem needElems_le (es : JsonArr) : needElems es ≤ (elemsChars es).length + 1 := by
  cases es with
  | nil => simp [needElems, elemsChars]
  | cons e es =>
    have h1 := needVal_le e
    have h2 := needElems_le es
    simp only [needElems, elemsChars, List.length_append, List.length_cons]
    rcases Nat.le_total (needVal e) (needElems es) with hle | hle
    · rw [Nat.max_eq_right hle]; omega
    · rw [Nat.max_eq_left hle]; omega
theorem needFields_le (fs : JsonObj) : needFields fs ≤ (fieldsChars fs).length + 1 := by
  cases fs with
  | nil => simp [needFields, fieldsChars]
  | cons k v fs =>
    have h1 := needVal_le v
    have h2 := needFields_le fs
    have h3 := quoteChars_length k
    simp only [needFields, fieldsChars, List.length_append, List.length_cons]
    rcases Nat.le_total (1 + needVal v) (needFields fs) with hle | hle
    · rw [Nat.max_eq_right hle]; omega
    · rw [Nat.max_eq_left hle]; omega
end

theorem parseJson_stringify (j : Json) : parseJson (stringify j) = some j := by
  have hd : (stringify j).data = jsonChars j := rfl
  have hs : skipWs (jsonChars j) = jsonChars j := by
    have h := skipWs_jsonChars j []
    simpa using h
  have hv : parseVal ((jsonChars j).length + 1) (jsonChars j) = some (j, []) := by
    have h := (rt_all ((jsonChars j).length + 1)).1 j []
      (by have := needVal_le j; omega)
    simpa using h
  simp only [parseJson, hd, hs, hv]
  rfl

theorem jsonArrToList_ofList (l : List Json) : jsonArrToList (jsonArrOfList l) = l := by
  induction l with
  | nil => rfl
  | cons j rest ih => simp [jsonArrOfList, jsonArrToList, ih]

theorem jsonObjToList_ofList (l : List (String × Json)) :
    jsonObjToList (jsonObjOfList l) = l := by
  induction l with
  | nil => rfl
  | cons p rest ih =>
    obtain ⟨k, v⟩ := p
    simp [jsonObjOfList, jsonObjToList, ih]

set_option maxHeartbeats 1000000 in
theorem decodeAppRecord_toJson (r : AppRecord) : decodeAppRecord r.toJson = some r := by
  obtain ⟨name, description, exec, icon, terminal, category, keywords, path⟩ := r
  cases name <;> cases description <;> cases exec <;> cases icon <;> cases terminal <;>
    cases category <;> cases keywords <;>
    simp +decide [AppRecord.toJson, AppRecord.fieldsList, optStrField, optBoolField,
      jsonObjOfList, jsonObjToList, decodeAppRecord, getStrField, getBoolField,
      getReqStrField, jLookup]

theorem decodeAppList_map (l : List AppRecord) :
    decodeAppList (l.map AppRecord.toJson) = some l := by
  induction l with
  | nil => rfl
  | cons r rest ih => simp [decodeAppList, decodeAppRecord_toJson, ih]

theorem decodeApps_appMenuJson (l : List AppRecord) :
    decodeApps (appMenuJson l) = some l := by
  simp +decide [decodeApps, appMenuJson, jsonObjToList, jLookup, jsonArrToList_ofList,
    decodeAppList_map]

/-- C8: encoding any built application list into the cache-file text and
then decoding it back (parse, then field-for-field reading of the `Apps`
member) yields the same list, field for field and in the same order. -/
theorem cacheRoundTrip :
    ∀ apps : List AppRecord,
      decodeAppMenu (encodeAppMenu apps) = some apps ∧
      parseJson (encodeAppMenu apps) = some (appMenuJson apps) ∧
      decodeApps (appMenuJson apps) = some apps := by
  intro apps
  have h1 : parseJson (encodeAppMenu apps) = some (appMenuJson apps) :=
    parseJson_stringify (appMenuJson apps)
  have h2 : decodeApps (appMenuJson apps) = some apps := decodeApps_appMenuJson apps
  exact ⟨by simp [decodeAppMenu, h1, h2], h1, h2⟩
